import Mathlib

/-!
# Verification of the @vyke/dency scope-and-context resolution engine

Shallow embedding of the dependency-injection engine (`createScope`,
`inject`, `use`, `defineInjectable`) and of the ambient-context cell
(`createContext` / `getContext` / `runInContext`).

Modelling choices:
* JavaScript values are modelled by `Value`: the falsy primitives
  (`undefined`, booleans, numbers, strings) plus heap objects identified by
  an allocation id.  All JS falsy values are primitives; objects are always
  truthy.
* The mutable module-level `context` variable of `createContext` becomes the
  `context` field of `EngineState`; `runInContext` is state-passing, and a
  raised exception is an `Except.error` paired with the state at the moment
  of the raise (JS exceptions do not roll state back).
* Injectables are identified by natural-number ids; a static environment
  `Defs` maps each id to its `scopeType` and factory body.  Factory bodies
  are a small deep embedding (`FBody`): a sequence of nested `inject` calls
  followed by a return action (fresh object, constant, the explicit
  argument, or a throw), which covers every factory shape exercised by the
  repository's tests.
* `Map` caches and the `deps` sets become association lists; `Set` insertion
  order is preserved by `addOnce`.
* Factory recursion is bounded by fuel; running out of fuel models the
  host's stack-overflow on cyclic graphs (accepted by the design).
-/

/-- A JavaScript runtime value: the primitive kinds that can be falsy, plus
heap objects identified by an allocation id (objects are always truthy). -/
inductive Value where
  | undef : Value
  | boolean : Bool → Value
  | num : Int → Value
  | str : String → Value
  | obj : Nat → Value
deriving DecidableEq, Repr

/-- JavaScript truthiness of a value. -/
def Value.truthy : Value → Bool
  | .undef => false
  | .boolean b => b
  | .num n => n != 0
  | .str s => s != ""
  | .obj _ => true

/-- Scope types, numbered exactly as in the source
(`SINGLETON_SCOPE = 0`, `TRANSIENT_SCOPE = 1`, `SCOPED_SCOPE = 2`). -/
abbrev ScopeType := Nat

def SINGLETON_SCOPE : ScopeType := 0
def TRANSIENT_SCOPE : ScopeType := 1
def SCOPED_SCOPE : ScopeType := 2

/-- One nested `inject` call performed by a factory body:
`inject(target, ...args)`. -/
structure CallSpec where
  target : Nat
  args : List Value
deriving DecidableEq, Repr

/-- The return action of a factory body. -/
inductive RetSpec where
  /-- return a freshly allocated object, e.g. `() => ({})` -/
  | newObj : RetSpec
  /-- return a constant primitive value -/
  | const : Value → RetSpec
  /-- return the first explicit argument (or `undefined` if absent) -/
  | arg : RetSpec
  /-- throw an error, identified by a code -/
  | throw : Nat → RetSpec
deriving DecidableEq, Repr

/-- A factory body: a sequence of nested `inject` calls, then a return. -/
structure FBody where
  calls : List CallSpec
  ret : RetSpec
deriving DecidableEq, Repr

/-- The immutable part of an injectable definition (`defineInjectable`):
its scope type and its creator's body.  The mutable `deps` set lives in
`EngineState`. -/
structure InjDef where
  scopeType : ScopeType
  body : FBody
deriving DecidableEq, Repr

/-- The static environment of defined injectables, keyed by id. -/
abbrev Defs := List (Nat × InjDef)

/-- The ambient context: `{ scope, parentCreator }`. -/
structure Context where
  scope : Nat
  parentCreator : Option Nat
deriving DecidableEq, Repr

/-- A scope's instance cache: injectable id → cached value. -/
abbrev Cache := List (Nat × Value)

/-- Association-list lookup (the `Map.get` of the model). -/
def alookup {α β : Type} [DecidableEq α] : List (α × β) → α → Option β
  | [], _ => none
  | (k, v) :: rest, a => if k = a then some v else alookup rest a

/-- Association-list update (the `Map.set` of the model): replaces the
binding in place, or appends a new one. -/
def aset {α β : Type} [DecidableEq α] : List (α × β) → α → β → List (α × β)
  | [], a, b => [(a, b)]
  | (k, v) :: rest, a, b =>
      if k = a then (a, b) :: rest else (k, v) :: aset rest a b

/-- Add to a JS `Set` (kept as a list in insertion order, no duplicates). -/
def addOnce (l : List Nat) (y : Nat) : List Nat :=
  if y ∈ l then l else l ++ [y]

/-- The root scope's id: `rootScope` is created once at module load. -/
def rootScopeId : Nat := 0

/-- The whole mutable state of the engine: the ambient context cell, the
fresh-object allocation counter, every scope's instance cache and every
injectable's observed dependency set. -/
structure EngineState where
  context : Context
  nextId : Nat
  scopes : List (Nat × Cache)
  deps : List (Nat × List Nat)
deriving DecidableEq, Repr

/-- The state at module load: ambient context `{scope: rootScope}`,
no allocations, all caches empty, all dependency sets empty. -/
def initState : EngineState :=
  { context := { scope := rootScopeId, parentCreator := none }
  , nextId := 0
  , scopes := []
  , deps := [] }

/-- A scope's cache (empty when the scope has never been written). -/
def cacheOf (s : EngineState) (sid : Nat) : Cache :=
  (alookup s.scopes sid).getD []

/-- Model of `scope.instances.get(injectable)`. -/
def cacheGet (s : EngineState) (sid x : Nat) : Option Value :=
  alookup (cacheOf s sid) x

/-- Model of `scope.instances.set(injectable, v)`. -/
def cacheSet (s : EngineState) (sid x : Nat) (v : Value) : EngineState :=
  { s with scopes := aset s.scopes sid (aset (cacheOf s sid) x v) }

/-- An injectable's observed dependency set (`injectable.deps`). -/
def depsOf (s : EngineState) (x : Nat) : List Nat :=
  (alookup s.deps x).getD []

/-- Model of `parentCreator.deps.add(injectable)`. -/
def addDep (s : EngineState) (p y : Nat) : EngineState :=
  { s with deps := aset s.deps p (addOnce (depsOf s p) y) }

/-- Errors that can escape a resolution: a factory `throw`, running out of
call-stack fuel (the host's recursion limit on cyclic graphs), or
resolving an id that was never defined. -/
inductive Err where
  | thrown : Nat → Err
  | fuel : Err
  | notFound : Nat → Err
deriving DecidableEq, Repr

/-- Model of `runInContext(newContext, fn)` from `createContext`:

```ts
const oldContext = context
context = newContext
const result = fn()
context = oldContext
return result
```

The old binding is restored only on the normal return path; when `fn`
raises, the exception propagates and the context cell keeps whatever value
`fn` left in it. -/
def runInContext {α : Type} (newCtx : Context)
    (fn : EngineState → Except Err α × EngineState)
    (s : EngineState) : Except Err α × EngineState :=
  let oldContext := s.context
  match fn { s with context := newCtx } with
  | (Except.ok result, s2) => (Except.ok result, { s2 with context := oldContext })
  | (Except.error e, s2) => (Except.error e, s2)

/-- Evaluate a factory body's return action. -/
def retEval (r : RetSpec) (args : List Value) (s : EngineState) :
    Except Err Value × EngineState :=
  match r with
  | .newObj => (Except.ok (Value.obj s.nextId), { s with nextId := s.nextId + 1 })
  | .const v => (Except.ok v, s)
  | .arg => (Except.ok (args.headD Value.undef), s)
  | .throw c => (Except.error (Err.thrown c), s)

mutual

/-- Model of `inject(injectable, ...args)`:

```ts
const { scopeType = SINGLETON_SCOPE } = injectable
const { parentCreator, scope } = getContext()
if (parentCreator) { parentCreator.deps.add(injectable) }
function create() { return injectable.creator(...args) }
if (scopeType === TRANSIENT_SCOPE) {
  return runInContext({ scope, parentCreator: injectable }, create)
}
const { instances } = scopeType === SINGLETON_SCOPE ? rootScope : scope
const instance = instances.get(injectable)
if (instance) { return instance }
return runInContext({ scope, parentCreator: injectable }, () => {
  const newInstance = create()
  instances.set(injectable, newInstance)
  return newInstance
})
```

Fuel bounds the call-stack depth; each nested call strictly decreases it. -/
def injectF (defs : Defs) : Nat → Nat → List Value → EngineState →
    Except Err Value × EngineState
  | 0, _, _, s => (Except.error Err.fuel, s)
  | fuel + 1, x, args, s =>
    match alookup defs x with
    | none => (Except.error (Err.notFound x), s)
    | some d =>
      let scope := s.context.scope
      let s1 : EngineState :=
        match s.context.parentCreator with
        | some p => addDep s p x
        | none => s
      let createRun : EngineState → Except Err Value × EngineState := fun sc =>
        match interpCallsF defs fuel d.body.calls sc with
        | (Except.ok _, s2) => retEval d.body.ret args s2
        | (Except.error e, s2) => (Except.error e, s2)
      if d.scopeType = TRANSIENT_SCOPE then
        runInContext { scope := scope, parentCreator := some x } createRun s1
      else
        let target := if d.scopeType = SINGLETON_SCOPE then rootScopeId else scope
        let miss : Except Err Value × EngineState :=
          runInContext { scope := scope, parentCreator := some x }
            (fun sc =>
              match createRun sc with
              | (Except.ok v, s2) => (Except.ok v, cacheSet s2 target x v)
              | (Except.error e, s2) => (Except.error e, s2)) s1
        match cacheGet s1 target x with
        | some v => if v.truthy then (Except.ok v, s1) else miss
        | none => miss

/-- Run a factory body's sequence of nested `inject` calls in order. -/
def interpCallsF (defs : Defs) : Nat → List CallSpec → EngineState →
    Except Err Unit × EngineState
  | _, [], s => (Except.ok (), s)
  | 0, _ :: _, s => (Except.error Err.fuel, s)
  | fuel + 1, c :: rest, s =>
    match injectF defs fuel c.target c.args s with
    | (Except.ok _, s2) => interpCallsF defs fuel rest s2
    | (Except.error e, s2) => (Except.error e, s2)

end

/-- Model of `scope.inject(injectable, ...args)`:

```ts
return runInContext({ scope, parentCreator: injectable }, () => {
  return inject(injectable, ...args)
})
``` -/
def scopeInject (defs : Defs) (fuel : Nat) (sid x : Nat) (args : List Value)
    (s : EngineState) : Except Err Value × EngineState :=
  runInContext { scope := sid, parentCreator := some x }
    (fun s1 => injectF defs fuel x args s1) s

/-- Model of `use(injectable)`:

```ts
const { scopeType = SINGLETON_SCOPE } = injectable
const { scope } = getContext()
const { instances } = scopeType === SINGLETON_SCOPE ? rootScope : scope
const instance = instances.get(injectable)
if (instance) { return instance }
return undefined
``` -/
def useF (defs : Defs) (x : Nat) (s : EngineState) :
    Except Err Value × EngineState :=
  match alookup defs x with
  | none => (Except.error (Err.notFound x), s)
  | some d =>
    let target := if d.scopeType = SINGLETON_SCOPE then rootScopeId else s.context.scope
    match cacheGet s target x with
    | some v =>
        if v.truthy then (Except.ok v, s) else (Except.ok Value.undef, s)
    | none => (Except.ok Value.undef, s)

/-- Model of `scope.use(injectable)`:

```ts
return runInContext({ scope }, () => { return use(injectable) })
``` -/
def scopeUse (defs : Defs) (sid x : Nat) (s : EngineState) :
    Except Err Value × EngineState :=
  runInContext { scope := sid, parentCreator := none } (useF defs x) s

/-- Model of `scope.reset()`: `instances.clear()` on that scope only. -/
def resetScope (sid : Nat) (s : EngineState) : EngineState :=
  { s with scopes := aset s.scopes sid [] }

/-- A top-level operation of the public API. -/
inductive Op where
  | inj : Nat → List Value → Op
  | sInj : Nat → Nat → List Value → Op
  | usE : Nat → Op
  | sUse : Nat → Nat → Op
  | reset : Nat → Op
deriving DecidableEq, Repr

/-- Run one public operation, keeping only the state. -/
def runOp (defs : Defs) (fuel : Nat) (op : Op) (s : EngineState) : EngineState :=
  match op with
  | .inj x args => (injectF defs fuel x args s).2
  | .sInj sid x args => (scopeInject defs fuel sid x args s).2
  | .usE x => (useF defs x s).2
  | .sUse sid x => (scopeUse defs sid x s).2
  | .reset sid => resetScope sid s

/-- Run a sequence of public operations. -/
def runOps (defs : Defs) (fuel : Nat) : List Op → EngineState → EngineState
  | [], s => s
  | op :: rest, s => runOps defs fuel rest (runOp defs fuel op s)

/-! ## Characterization of one `inject` step -/

/-- Step 2 of the algorithm: record the dependency edge on the ambient
parent, when there is one. -/
def recordEdge (s : EngineState) (x : Nat) : EngineState :=
  match s.context.parentCreator with
  | some p => addDep s p x
  | none => s

/-- The target cache selector: root scope for SINGLETON, else the ambient
scope. -/
def targetOf (d : InjDef) (amb : Nat) : Nat :=
  if d.scopeType = SINGLETON_SCOPE then rootScopeId else amb

/-- The factory invocation `create()`: run the body's nested calls, then
its return action. -/
def createRunF (defs : Defs) (fuel : Nat) (b : FBody) (args : List Value)
    (s : EngineState) : Except Err Value × EngineState :=
  match interpCallsF defs fuel b.calls s with
  | (Except.ok _, s2) => retEval b.ret args s2
  | (Except.error e, s2) => (Except.error e, s2)

/-- The cache-miss path: run the factory under the swapped-in context and
store the produced value under the injectable's key in the target cache. -/
def missRunF (defs : Defs) (fuel : Nat) (d : InjDef) (x : Nat)
    (args : List Value) (target scope : Nat) (s1 : EngineState) :
    Except Err Value × EngineState :=
  runInContext { scope := scope, parentCreator := some x }
    (fun sc =>
      match createRunF defs fuel d.body args sc with
      | (Except.ok v, s2) => (Except.ok v, cacheSet s2 target x v)
      | (Except.error e, s2) => (Except.error e, s2)) s1

/-- Unfolding lemma for `injectF` at positive fuel, phrased through the
named pieces of the algorithm. -/
theorem injectF_succ (defs : Defs) (fuel x : Nat) (args : List Value)
    (s : EngineState) :
    injectF defs (fuel + 1) x args s =
      match alookup defs x with
      | none => (Except.error (Err.notFound x), s)
      | some d =>
        if d.scopeType = TRANSIENT_SCOPE then
          runInContext { scope := s.context.scope, parentCreator := some x }
            (createRunF defs fuel d.body args) (recordEdge s x)
        else
          match cacheGet (recordEdge s x) (targetOf d s.context.scope) x with
          | some v =>
              if v.truthy then (Except.ok v, recordEdge s x)
              else missRunF defs fuel d x args (targetOf d s.context.scope)
                s.context.scope (recordEdge s x)
          | none => missRunF defs fuel d x args (targetOf d s.context.scope)
              s.context.scope (recordEdge s x) := by
  rfl

/-! ## Basic lemmas about the state primitives -/

theorem alookup_aset_self {α β : Type} [DecidableEq α]
    (l : List (α × β)) (a : α) (b : β) :
    alookup (aset l a b) a = some b := by
  induction l with
  | nil => simp [aset, alookup]
  | cons hd tl ih =>
      obtain ⟨k, v⟩ := hd
      by_cases h : k = a
      · simp [aset, alookup, h]
      · simp [aset, alookup, h, ih]

theorem alookup_aset_ne {α β : Type} [DecidableEq α]
    (l : List (α × β)) (a a' : α) (b : β) (h : a' ≠ a) :
    alookup (aset l a b) a' = alookup l a' := by
  induction l with
  | nil =>
      simp only [aset, alookup]
      rw [if_neg (fun hc => h hc.symm)]
  | cons hd tl ih =>
      obtain ⟨k, v⟩ := hd
      simp only [aset]
      by_cases hk : k = a
      · rw [if_pos hk]
        subst hk
        simp only [alookup]
        rw [if_neg (fun hc => h hc.symm), if_neg (fun hc => h hc.symm)]
      · rw [if_neg hk]
        simp only [alookup]
        by_cases hk' : k = a'
        · rw [if_pos hk', if_pos hk']
        · rw [if_neg hk', if_neg hk', ih]

theorem mem_addOnce_self (l : List Nat) (y : Nat) : y ∈ addOnce l y := by
  unfold addOnce
  by_cases h : y ∈ l <;> simp [h]

theorem mem_addOnce_of_mem (l : List Nat) (y z : Nat) (h : z ∈ l) :
    z ∈ addOnce l y := by
  unfold addOnce
  by_cases hy : y ∈ l <;> simp [hy, h]

theorem mem_of_mem_addOnce (l : List Nat) (y z : Nat) (h : z ∈ addOnce l y) :
    z ∈ l ∨ z = y := by
  unfold addOnce at h
  by_cases hy : y ∈ l
  · simp [hy] at h; exact Or.inl h
  · simp [hy] at h; exact h

theorem addDep_context (s : EngineState) (p y : Nat) :
    (addDep s p y).context = s.context := rfl

theorem addDep_nextId (s : EngineState) (p y : Nat) :
    (addDep s p y).nextId = s.nextId := rfl

theorem addDep_scopes (s : EngineState) (p y : Nat) :
    (addDep s p y).scopes = s.scopes := rfl

theorem cacheGet_addDep (s : EngineState) (p y sid z : Nat) :
    cacheGet (addDep s p y) sid z = cacheGet s sid z := rfl

theorem cacheSet_context (s : EngineState) (sid x : Nat) (v : Value) :
    (cacheSet s sid x v).context = s.context := rfl

theorem cacheSet_nextId (s : EngineState) (sid x : Nat) (v : Value) :
    (cacheSet s sid x v).nextId = s.nextId := rfl

theorem cacheSet_deps (s : EngineState) (sid x : Nat) (v : Value) :
    (cacheSet s sid x v).deps = s.deps := rfl

theorem depsOf_cacheSet (s : EngineState) (sid x q : Nat) (v : Value) :
    depsOf (cacheSet s sid x v) q = depsOf s q := rfl

theorem cacheGet_withContext (s : EngineState) (c : Context) (sid y : Nat) :
    cacheGet { s with context := c } sid y = cacheGet s sid y := rfl

theorem depsOf_withContext (s : EngineState) (c : Context) (q : Nat) :
    depsOf { s with context := c } q = depsOf s q := rfl

theorem depsOf_addDep_self (s : EngineState) (p y : Nat) :
    depsOf (addDep s p y) p = addOnce (depsOf s p) y := by
  have h0 : depsOf (addDep s p y) p
      = (alookup (aset s.deps p (addOnce (depsOf s p) y)) p).getD [] := rfl
  rw [h0, alookup_aset_self]
  rfl

theorem depsOf_addDep_ne (s : EngineState) (p y q : Nat) (h : q ≠ p) :
    depsOf (addDep s p y) q = depsOf s q := by
  have h0 : depsOf (addDep s p y) q
      = (alookup (aset s.deps p (addOnce (depsOf s p) y)) q).getD [] := rfl
  rw [h0, alookup_aset_ne _ _ _ _ h]
  rfl

theorem cacheGet_cacheSet_self (s : EngineState) (t x : Nat) (v : Value) :
    cacheGet (cacheSet s t x v) t x = some v := by
  unfold cacheGet cacheSet cacheOf
  simp [alookup_aset_self]

theorem cacheGet_cacheSet_ne (s : EngineState) (t x sid y : Nat) (v : Value)
    (h : ¬(sid = t ∧ y = x)) :
    cacheGet (cacheSet s t x v) sid y = cacheGet s sid y := by
  unfold cacheGet cacheSet cacheOf
  by_cases hs : sid = t
  · subst hs
    have hy : y ≠ x := fun hc => h ⟨rfl, hc⟩
    simp [alookup_aset_self, alookup_aset_ne _ _ _ _ hy]
  · simp [alookup_aset_ne _ _ _ _ hs]

/-! ## Case lemmas for the resolution pieces -/

theorem runInContext_of_ok {α : Type} (newCtx : Context)
    (fn : EngineState → Except Err α × EngineState) (s s2 : EngineState)
    (v : α) (h : fn { s with context := newCtx } = (Except.ok v, s2)) :
    runInContext newCtx fn s = (Except.ok v, { s2 with context := s.context }) := by
  unfold runInContext
  rw [h]

theorem runInContext_of_error {α : Type} (newCtx : Context)
    (fn : EngineState → Except Err α × EngineState) (s s2 : EngineState)
    (e : Err) (h : fn { s with context := newCtx } = (Except.error e, s2)) :
    runInContext newCtx fn s = (Except.error e, s2) := by
  unfold runInContext
  rw [h]

theorem createRunF_of_ok (defs : Defs) (fuel : Nat) (b : FBody)
    (args : List Value) (s s2 : EngineState) (u : Unit)
    (h : interpCallsF defs fuel b.calls s = (Except.ok u, s2)) :
    createRunF defs fuel b args s = retEval b.ret args s2 := by
  unfold createRunF
  rw [h]

theorem createRunF_of_error (defs : Defs) (fuel : Nat) (b : FBody)
    (args : List Value) (s s2 : EngineState) (e : Err)
    (h : interpCallsF defs fuel b.calls s = (Except.error e, s2)) :
    createRunF defs fuel b args s = (Except.error e, s2) := by
  unfold createRunF
  rw [h]

theorem missRunF_of_ok (defs : Defs) (fuel : Nat) (d : InjDef) (x : Nat)
    (args : List Value) (target scope : Nat) (s1 s2 : EngineState) (v : Value)
    (h : createRunF defs fuel d.body args
      { s1 with context := { scope := scope, parentCreator := some x } }
      = (Except.ok v, s2)) :
    missRunF defs fuel d x args target scope s1
      = (Except.ok v, { cacheSet s2 target x v with context := s1.context }) := by
  unfold missRunF
  exact runInContext_of_ok _ _ _ _ _ (by rw [h])

theorem missRunF_of_error (defs : Defs) (fuel : Nat) (d : InjDef) (x : Nat)
    (args : List Value) (target scope : Nat) (s1 s2 : EngineState) (e : Err)
    (h : createRunF defs fuel d.body args
      { s1 with context := { scope := scope, parentCreator := some x } }
      = (Except.error e, s2)) :
    missRunF defs fuel d x args target scope s1 = (Except.error e, s2) := by
  unfold missRunF
  exact runInContext_of_error _ _ _ _ _ (by rw [h])

theorem retEval_snd_context (r : RetSpec) (args : List Value) (s : EngineState) :
    ((retEval r args s).2).context = s.context := by
  cases r <;> rfl

theorem retEval_snd_scopes (r : RetSpec) (args : List Value) (s : EngineState) :
    ((retEval r args s).2).scopes = s.scopes := by
  cases r <;> rfl

theorem retEval_snd_deps (r : RetSpec) (args : List Value) (s : EngineState) :
    ((retEval r args s).2).deps = s.deps := by
  cases r <;> rfl

theorem retEval_nextId_mono (r : RetSpec) (args : List Value) (s : EngineState) :
    s.nextId ≤ ((retEval r args s).2).nextId := by
  cases r <;> simp [retEval]

theorem cacheGet_retEval (r : RetSpec) (args : List Value) (s : EngineState)
    (sid y : Nat) :
    cacheGet ((retEval r args s).2) sid y = cacheGet s sid y := by
  unfold cacheGet cacheOf
  rw [retEval_snd_scopes]

theorem depsOf_retEval (r : RetSpec) (args : List Value) (s : EngineState)
    (q : Nat) :
    depsOf ((retEval r args s).2) q = depsOf s q := by
  unfold depsOf
  rw [retEval_snd_deps]

theorem recordEdge_context (s : EngineState) (x : Nat) :
    (recordEdge s x).context = s.context := by
  cases h : s.context.parentCreator with
  | none => simp [recordEdge, h]
  | some p => simp [recordEdge, h, addDep_context]

theorem recordEdge_nextId (s : EngineState) (x : Nat) :
    (recordEdge s x).nextId = s.nextId := by
  cases h : s.context.parentCreator with
  | none => simp [recordEdge, h]
  | some p => simp [recordEdge, h, addDep_nextId]

theorem recordEdge_scopes (s : EngineState) (x : Nat) :
    (recordEdge s x).scopes = s.scopes := by
  cases h : s.context.parentCreator with
  | none => simp [recordEdge, h]
  | some p => simp [recordEdge, h, addDep_scopes]

theorem cacheGet_recordEdge (s : EngineState) (x sid y : Nat) :
    cacheGet (recordEdge s x) sid y = cacheGet s sid y := by
  unfold cacheGet cacheOf
  rw [recordEdge_scopes]

/-! ## Invariant: the ambient scope component is never changed

Every context swap performed inside a resolution keeps the `scope`
component of the ambient context (only `scope.inject` / `scope.use`
install a different scope, at the entry point). -/

theorem createRunF_scope_inv (defs : Defs) (fuel : Nat) (b : FBody)
    (args : List Value)
    (ih : ∀ calls s, ((interpCallsF defs fuel calls s).2).context.scope
      = s.context.scope) :
    ∀ s, ((createRunF defs fuel b args s).2).context.scope = s.context.scope := by
  intro s
  cases hi : interpCallsF defs fuel b.calls s with
  | mk r s3 =>
    have hscope := ih b.calls s
    rw [hi] at hscope
    cases r with
    | ok u =>
        rw [createRunF_of_ok _ _ _ _ _ _ _ hi, retEval_snd_context]
        exact hscope
    | error e =>
        rw [createRunF_of_error _ _ _ _ _ _ _ hi]
        exact hscope

theorem missRunF_scope_inv (defs : Defs) (fuel : Nat) (d : InjDef) (x : Nat)
    (args : List Value) (target : Nat) (s1 : EngineState)
    (ih : ∀ calls s, ((interpCallsF defs fuel calls s).2).context.scope
      = s.context.scope) :
    ((missRunF defs fuel d x args target s1.context.scope s1).2).context.scope
      = s1.context.scope := by
  cases hc : createRunF defs fuel d.body args
      { s1 with context := { scope := s1.context.scope, parentCreator := some x } } with
  | mk r s2 =>
    cases r with
    | ok v =>
        rw [missRunF_of_ok _ _ _ _ _ _ _ _ _ _ hc]
    | error e =>
        rw [missRunF_of_error _ _ _ _ _ _ _ _ _ _ hc]
        have h2 := createRunF_scope_inv defs fuel d.body args ih
          { s1 with context := { scope := s1.context.scope, parentCreator := some x } }
        rw [hc] at h2
        exact h2

theorem contextScope_inv (defs : Defs) :
    ∀ fuel : Nat,
      (∀ x args s,
        ((injectF defs fuel x args s).2).context.scope = s.context.scope)
      ∧ (∀ calls s,
        ((interpCallsF defs fuel calls s).2).context.scope = s.context.scope) := by
  intro fuel
  induction fuel with
  | zero =>
      refine ⟨fun x args s => rfl, fun calls s => ?_⟩
      cases calls <;> rfl
  | succ n ih =>
      obtain ⟨ihI, ihC⟩ := ih
      have hinj : ∀ x args s,
          ((injectF defs (n + 1) x args s).2).context.scope = s.context.scope := by
        intro x args s
        rw [injectF_succ]
        cases hd : alookup defs x with
        | none => rfl
        | some d =>
          dsimp only
          by_cases ht : d.scopeType = TRANSIENT_SCOPE
          · rw [if_pos ht]
            cases hc : createRunF defs n d.body args
                { recordEdge s x with
                  context := { scope := s.context.scope, parentCreator := some x } } with
            | mk r s2 =>
              cases r with
              | ok v =>
                  rw [runInContext_of_ok _ _ _ _ _ hc]
                  show (recordEdge s x).context.scope = s.context.scope
                  rw [recordEdge_context]
              | error e =>
                  rw [runInContext_of_error _ _ _ _ _ hc]
                  have h2 := createRunF_scope_inv defs n d.body args ihC
                    { recordEdge s x with
                      context := { scope := s.context.scope, parentCreator := some x } }
                  rw [hc] at h2
                  exact h2
          · rw [if_neg ht]
            have hsc : (recordEdge s x).context.scope = s.context.scope := by
              rw [recordEdge_context]
            have hmiss : ((missRunF defs n d x args (targetOf d s.context.scope)
                s.context.scope (recordEdge s x)).2).context.scope = s.context.scope := by
              have := missRunF_scope_inv defs n d x args
                (targetOf d s.context.scope) (recordEdge s x) ihC
              rw [hsc] at this
              exact this
            cases hcg : cacheGet (recordEdge s x) (targetOf d s.context.scope) x with
            | none => exact hmiss
            | some v =>
              dsimp only
              by_cases htr : v.truthy
              · rw [if_pos htr]
                rw [recordEdge_context]
              · rw [if_neg htr]
                exact hmiss
      refine ⟨hinj, ?_⟩
      intro calls s
      cases calls with
      | nil => rfl
      | cons c rest =>
        rw [show interpCallsF defs (n + 1) (c :: rest) s
          = (match injectF defs n c.target c.args s with
             | (Except.ok _, s2) => interpCallsF defs n rest s2
             | (Except.error e, s2) => (Except.error e, s2)) from rfl]
        cases hi : injectF defs n c.target c.args s with
        | mk r s2 =>
          have h1 := ihI c.target c.args s
          rw [hi] at h1
          cases r with
          | ok u =>
              dsimp only
              rw [ihC rest s2, h1]
          | error e =>
              exact h1

/-! ## Invariant: the allocation counter never decreases -/

theorem createRunF_nextId_mono (defs : Defs) (fuel : Nat) (b : FBody)
    (args : List Value)
    (ih : ∀ calls s, s.nextId ≤ ((interpCallsF defs fuel calls s).2).nextId) :
    ∀ s, s.nextId ≤ ((createRunF defs fuel b args s).2).nextId := by
  intro s
  cases hi : interpCallsF defs fuel b.calls s with
  | mk r s3 =>
    have hm := ih b.calls s
    rw [hi] at hm
    cases r with
    | ok u =>
        rw [createRunF_of_ok _ _ _ _ _ _ _ hi]
        exact le_trans hm (retEval_nextId_mono _ _ _)
    | error e =>
        rw [createRunF_of_error _ _ _ _ _ _ _ hi]
        exact hm

theorem missRunF_nextId_mono (defs : Defs) (fuel : Nat) (d : InjDef) (x : Nat)
    (args : List Value) (target scope : Nat) (s1 : EngineState)
    (ih : ∀ calls s, s.nextId ≤ ((interpCallsF defs fuel calls s).2).nextId) :
    s1.nextId ≤ ((missRunF defs fuel d x args target scope s1).2).nextId := by
  cases hc : createRunF defs fuel d.body args
      { s1 with context := { scope := scope, parentCreator := some x } } with
  | mk r s2 =>
    have hm := createRunF_nextId_mono defs fuel d.body args ih
      { s1 with context := { scope := scope, parentCreator := some x } }
    rw [hc] at hm
    cases r with
    | ok v =>
        rw [missRunF_of_ok _ _ _ _ _ _ _ _ _ _ hc]
        exact hm
    | error e =>
        rw [missRunF_of_error _ _ _ _ _ _ _ _ _ _ hc]
        exact hm

theorem nextId_mono (defs : Defs) :
    ∀ fuel : Nat,
      (∀ x args s, s.nextId ≤ ((injectF defs fuel x args s).2).nextId)
      ∧ (∀ calls s, s.nextId ≤ ((interpCallsF defs fuel calls s).2).nextId) := by
  intro fuel
  induction fuel with
  | zero =>
      refine ⟨fun x args s => le_refl _, fun calls s => ?_⟩
      cases calls <;> exact le_refl _
  | succ n ih =>
      obtain ⟨ihI, ihC⟩ := ih
      have hinj : ∀ x args s,
          s.nextId ≤ ((injectF defs (n + 1) x args s).2).nextId := by
        intro x args s
        rw [injectF_succ]
        cases hd : alookup defs x with
        | none => exact le_refl _
        | some d =>
          dsimp only
          have hrec : s.nextId = (recordEdge s x).nextId := (recordEdge_nextId s x).symm
          by_cases ht : d.scopeType = TRANSIENT_SCOPE
          · rw [if_pos ht]
            cases hc : createRunF defs n d.body args
                { recordEdge s x with
                  context := { scope := s.context.scope, parentCreator := some x } } with
            | mk r s2 =>
              have hm := createRunF_nextId_mono defs n d.body args ihC
                { recordEdge s x with
                  context := { scope := s.context.scope, parentCreator := some x } }
              rw [hc] at hm
              cases r with
              | ok v =>
                  rw [runInContext_of_ok _ _ _ _ _ hc]
                  exact hrec ▸ hm
              | error e =>
                  rw [runInContext_of_error _ _ _ _ _ hc]
                  exact hrec ▸ hm
          · rw [if_neg ht]
            have hmiss : s.nextId ≤ ((missRunF defs n d x args
                (targetOf d s.context.scope) s.context.scope (recordEdge s x)).2).nextId := by
              have := missRunF_nextId_mono defs n d x args
                (targetOf d s.context.scope) s.context.scope (recordEdge s x) ihC
              exact hrec ▸ this
            cases hcg : cacheGet (recordEdge s x) (targetOf d s.context.scope) x with
            | none => exact hmiss
            | some v =>
              dsimp only
              by_cases htr : v.truthy
              · rw [if_pos htr]
                exact le_of_eq hrec
              · rw [if_neg htr]
                exact hmiss
      refine ⟨hinj, ?_⟩
      intro calls s
      cases calls with
      | nil => exact le_refl _
      | cons c rest =>
        rw [show interpCallsF defs (n + 1) (c :: rest) s
          = (match injectF defs n c.target c.args s with
             | (Except.ok _, s2) => interpCallsF defs n rest s2
             | (Except.error e, s2) => (Except.error e, s2)) from rfl]
        cases hi : injectF defs n c.target c.args s with
        | mk r s2 =>
          have h1 := ihI c.target c.args s
          rw [hi] at h1
          cases r with
          | ok u =>
              dsimp only
              exact le_trans h1 (ihC rest s2)
          | error e =>
              exact h1

/-! ## Invariant: a resolution that returns normally restores the context -/

theorem injectF_ok_context (defs : Defs) (fuel x : Nat) (args : List Value)
    (s s' : EngineState) (v : Value)
    (h : injectF defs fuel x args s = (Except.ok v, s')) :
    s'.context = s.context := by
  cases fuel with
  | zero =>
      rw [show injectF defs 0 x args s = (Except.error Err.fuel, s) from rfl] at h
      simp at h
  | succ n =>
      rw [injectF_succ] at h
      cases hd : alookup defs x with
      | none =>
          rw [hd] at h
          simp at h
      | some d =>
          rw [hd] at h
          dsimp only at h
          by_cases ht : d.scopeType = TRANSIENT_SCOPE
          · rw [if_pos ht] at h
            cases hc : createRunF defs n d.body args
                { recordEdge s x with
                  context := { scope := s.context.scope, parentCreator := some x } } with
            | mk r s2 =>
              cases r with
              | ok v0 =>
                  rw [runInContext_of_ok _ _ _ _ _ hc] at h
                  injection h with h1 h2
                  subst h2
                  show (recordEdge s x).context = s.context
                  rw [recordEdge_context]
              | error e =>
                  rw [runInContext_of_error _ _ _ _ _ hc] at h
                  simp at h
          · rw [if_neg ht] at h
            have hmiss :
                (missRunF defs n d x args (targetOf d s.context.scope)
                  s.context.scope (recordEdge s x)) = (Except.ok v, s') → s'.context = s.context := by
              intro hmv
              cases hc : createRunF defs n d.body args
                  { recordEdge s x with
                    context := { scope := s.context.scope, parentCreator := some x } } with
              | mk r s2 =>
                cases r with
                | ok v0 =>
                    rw [missRunF_of_ok _ _ _ _ _ _ _ _ _ _ hc] at hmv
                    injection hmv with h1 h2
                    subst h2
                    show (recordEdge s x).context = s.context
                    rw [recordEdge_context]
                | error e =>
                    rw [missRunF_of_error _ _ _ _ _ _ _ _ _ _ hc] at hmv
                    simp at hmv
            cases hcg : cacheGet (recordEdge s x) (targetOf d s.context.scope) x with
            | none =>
                rw [hcg] at h
                dsimp only at h
                exact hmiss h
            | some v0 =>
                rw [hcg] at h
                dsimp only at h
                by_cases htr : v0.truthy
                · rw [if_pos htr] at h
                  injection h with h1 h2
                  subst h2
                  rw [recordEdge_context]
                · rw [if_neg htr] at h
                  exact hmiss h

theorem interpCallsF_ok_context (defs : Defs) :
    ∀ fuel calls (s s' : EngineState) (u : Unit),
      interpCallsF defs fuel calls s = (Except.ok u, s') → s'.context = s.context := by
  intro fuel
  induction fuel with
  | zero =>
      intro calls s s' u h
      cases calls with
      | nil =>
          rw [show interpCallsF defs 0 [] s = (Except.ok (), s) from rfl] at h
          injection h with h1 h2
          subst h2
          rfl
      | cons c rest =>
          rw [show interpCallsF defs 0 (c :: rest) s
            = (Except.error Err.fuel, s) from rfl] at h
          simp at h
  | succ n ih =>
      intro calls s s' u h
      cases calls with
      | nil =>
          rw [show interpCallsF defs (n+1) [] s = (Except.ok (), s) from rfl] at h
          injection h with h1 h2
          subst h2
          rfl
      | cons c rest =>
          rw [show interpCallsF defs (n + 1) (c :: rest) s
            = (match injectF defs n c.target c.args s with
               | (Except.ok _, s2) => interpCallsF defs n rest s2
               | (Except.error e, s2) => (Except.error e, s2)) from rfl] at h
          cases hi : injectF defs n c.target c.args s with
          | mk r s2 =>
            rw [hi] at h
            cases r with
            | ok u0 =>
                dsimp only at h
                have h2 := ih rest s2 s' u h
                rw [h2, injectF_ok_context defs n c.target c.args s s2 u0 hi]
            | error e =>
                simp at h

/-! ## Invariant: cache writes are local

During a resolution with ambient scope `amb`, the only cache entry that can
change for an injectable `y` lives at `(targetOf d amb, y)` where `d` is
`y`'s definition and `d` is not transient: `instances.set` is only ever
invoked on the currently resolved injectable's own target cache. -/

/-- The cache slot `(sid, y)` cannot be written while the ambient scope is
`amb`: either `y` is transient (never stored) or `sid` is not `y`'s target
cache under `amb`. -/
def untouched (defs : Defs) (y sid amb : Nat) : Prop :=
  ∀ d, alookup defs y = some d →
    d.scopeType = TRANSIENT_SCOPE ∨ sid ≠ targetOf d amb

theorem createRunF_cacheLocal (defs : Defs) (fuel : Nat) (b : FBody)
    (args : List Value)
    (ih : ∀ calls s sid y, untouched defs y sid s.context.scope →
       cacheGet ((interpCallsF defs fuel calls s).2) sid y = cacheGet s sid y) :
    ∀ s sid y, untouched defs y sid s.context.scope →
      cacheGet ((createRunF defs fuel b args s).2) sid y = cacheGet s sid y := by
  intro s sid y hU
  cases hi : interpCallsF defs fuel b.calls s with
  | mk r s3 =>
    have hm := ih b.calls s sid y hU
    rw [hi] at hm
    cases r with
    | ok u =>
        rw [createRunF_of_ok _ _ _ _ _ _ _ hi, cacheGet_retEval]
        exact hm
    | error e =>
        rw [createRunF_of_error _ _ _ _ _ _ _ hi]
        exact hm

theorem missRunF_cacheLocal (defs : Defs) (fuel : Nat) (d : InjDef)
    (x : Nat) (args : List Value) (amb : Nat) (s1 : EngineState) (sid y : Nat)
    (_hamb : s1.context.scope = amb)
    (ih : ∀ calls s sid y, untouched defs y sid s.context.scope →
       cacheGet ((interpCallsF defs fuel calls s).2) sid y = cacheGet s sid y)
    (hU : untouched defs y sid amb)
    (hdx : alookup defs x = some d) (ht : d.scopeType ≠ TRANSIENT_SCOPE) :
    cacheGet ((missRunF defs fuel d x args (targetOf d amb) amb s1).2) sid y
      = cacheGet s1 sid y := by
  have hknot : ¬(sid = targetOf d amb ∧ y = x) := by
    rintro ⟨hs, hy⟩
    subst hy
    rcases hU d hdx with h1 | h1
    · exact ht h1
    · exact h1 hs
  cases hc : createRunF defs fuel d.body args
      { s1 with context := { scope := amb, parentCreator := some x } } with
  | mk r s2 =>
    have hcl := createRunF_cacheLocal defs fuel d.body args ih
      { s1 with context := { scope := amb, parentCreator := some x } } sid y hU
    rw [hc] at hcl
    cases r with
    | ok v =>
        rw [missRunF_of_ok _ _ _ _ _ _ _ _ _ _ hc]
        show cacheGet (cacheSet s2 (targetOf d amb) x v) sid y = cacheGet s1 sid y
        rw [cacheGet_cacheSet_ne _ _ _ _ _ _ hknot]
        exact hcl
    | error e =>
        rw [missRunF_of_error _ _ _ _ _ _ _ _ _ _ hc]
        exact hcl

theorem cacheLocal (defs : Defs) :
    ∀ fuel : Nat,
      (∀ x args s sid y, untouched defs y sid s.context.scope →
        cacheGet ((injectF defs fuel x args s).2) sid y = cacheGet s sid y)
      ∧ (∀ calls s sid y, untouched defs y sid s.context.scope →
        cacheGet ((interpCallsF defs fuel calls s).2) sid y = cacheGet s sid y) := by
  intro fuel
  induction fuel with
  | zero =>
      refine ⟨fun x args s sid y _ => rfl, fun calls s sid y _ => ?_⟩
      cases calls <;> rfl
  | succ n ih =>
      obtain ⟨ihI, ihC⟩ := ih
      have hinj : ∀ x args s sid y, untouched defs y sid s.context.scope →
          cacheGet ((injectF defs (n + 1) x args s).2) sid y = cacheGet s sid y := by
        intro x args s sid y hU
        rw [injectF_succ]
        cases hd : alookup defs x with
        | none => rfl
        | some d =>
          dsimp only
          by_cases ht : d.scopeType = TRANSIENT_SCOPE
          · rw [if_pos ht]
            cases hc : createRunF defs n d.body args
                { recordEdge s x with
                  context := { scope := s.context.scope, parentCreator := some x } } with
            | mk r s2 =>
              have hcl := createRunF_cacheLocal defs n d.body args ihC
                { recordEdge s x with
                  context := { scope := s.context.scope, parentCreator := some x } } sid y hU
              rw [hc] at hcl
              have hre : cacheGet (recordEdge s x) sid y = cacheGet s sid y :=
                cacheGet_recordEdge s x sid y
              cases r with
              | ok v =>
                  rw [runInContext_of_ok _ _ _ _ _ hc]
                  show cacheGet s2 sid y = cacheGet s sid y
                  rw [hcl]
                  exact hre
              | error e =>
                  rw [runInContext_of_error _ _ _ _ _ hc]
                  rw [hcl]
                  exact hre
          · rw [if_neg ht]
            have hmiss : cacheGet ((missRunF defs n d x args
                (targetOf d s.context.scope) s.context.scope (recordEdge s x)).2) sid y
                = cacheGet s sid y := by
              rw [missRunF_cacheLocal defs n d x args s.context.scope
                (recordEdge s x) sid y (by rw [recordEdge_context]) ihC hU hd ht]
              exact cacheGet_recordEdge s x sid y
            cases hcg : cacheGet (recordEdge s x) (targetOf d s.context.scope) x with
            | none => exact hmiss
            | some v =>
              dsimp only
              by_cases htr : v.truthy
              · rw [if_pos htr]
                exact cacheGet_recordEdge s x sid y
              · rw [if_neg htr]
                exact hmiss
      refine ⟨hinj, ?_⟩
      intro calls s sid y hU
      cases calls with
      | nil => rfl
      | cons c rest =>
        rw [show interpCallsF defs (n + 1) (c :: rest) s
          = (match injectF defs n c.target c.args s with
             | (Except.ok _, s2) => interpCallsF defs n rest s2
             | (Except.error e, s2) => (Except.error e, s2)) from rfl]
        cases hi : injectF defs n c.target c.args s with
        | mk r s2 =>
          have h1 := ihI c.target c.args s sid y hU
          rw [hi] at h1
          cases r with
          | ok u =>
              dsimp only
              have hsc : s2.context.scope = s.context.scope := by
                rw [injectF_ok_context defs n c.target c.args s s2 u hi]
              have h2 := ihC rest s2 sid y (by rw [hsc]; exact hU)
              rw [h2, h1]
          | error e =>
              exact h1

/-! ## Invariant: dependency sets only grow -/

theorem depsOf_recordEdge_mono (s : EngineState) (x q z : Nat)
    (h : z ∈ depsOf s q) : z ∈ depsOf (recordEdge s x) q := by
  cases hp : s.context.parentCreator with
  | none => simpa [recordEdge, hp] using h
  | some p =>
      simp only [recordEdge, hp]
      by_cases hq : q = p
      · subst hq
        rw [depsOf_addDep_self]
        exact mem_addOnce_of_mem _ _ _ h
      · rw [depsOf_addDep_ne _ _ _ _ hq]
        exact h

theorem createRunF_depsMono (defs : Defs) (fuel : Nat) (b : FBody)
    (args : List Value)
    (ih : ∀ calls s q z, z ∈ depsOf s q →
       z ∈ depsOf ((interpCallsF defs fuel calls s).2) q) :
    ∀ s q z, z ∈ depsOf s q → z ∈ depsOf ((createRunF defs fuel b args s).2) q := by
  intro s q z h
  cases hi : interpCallsF defs fuel b.calls s with
  | mk r s3 =>
    have hm := ih b.calls s q z h
    rw [hi] at hm
    cases r with
    | ok u =>
        rw [createRunF_of_ok _ _ _ _ _ _ _ hi, depsOf_retEval]
        exact hm
    | error e =>
        rw [createRunF_of_error _ _ _ _ _ _ _ hi]
        exact hm

theorem missRunF_depsMono (defs : Defs) (fuel : Nat) (d : InjDef)
    (x : Nat) (args : List Value) (target scope : Nat) (s1 : EngineState)
    (q z : Nat)
    (ih : ∀ calls s q z, z ∈ depsOf s q →
       z ∈ depsOf ((interpCallsF defs fuel calls s).2) q)
    (h : z ∈ depsOf s1 q) :
    z ∈ depsOf ((missRunF defs fuel d x args target scope s1).2) q := by
  cases hc : createRunF defs fuel d.body args
      { s1 with context := { scope := scope, parentCreator := some x } } with
  | mk r s2 =>
    have hm := createRunF_depsMono defs fuel d.body args ih
      { s1 with context := { scope := scope, parentCreator := some x } } q z h
    rw [hc] at hm
    cases r with
    | ok v =>
        rw [missRunF_of_ok _ _ _ _ _ _ _ _ _ _ hc]
        show z ∈ depsOf (cacheSet s2 target x v) q
        rw [depsOf_cacheSet]
        exact hm
    | error e =>
        rw [missRunF_of_error _ _ _ _ _ _ _ _ _ _ hc]
        exact hm

theorem depsMono (defs : Defs) :
    ∀ fuel : Nat,
      (∀ x args s q z, z ∈ depsOf s q →
        z ∈ depsOf ((injectF defs fuel x args s).2) q)
      ∧ (∀ calls s q z, z ∈ depsOf s q →
        z ∈ depsOf ((interpCallsF defs fuel calls s).2) q) := by
  intro fuel
  induction fuel with
  | zero =>
      refine ⟨fun x args s q z h => h, fun calls s q z h => ?_⟩
      cases calls <;> exact h
  | succ n ih =>
      obtain ⟨ihI, ihC⟩ := ih
      have hinj : ∀ x args s q z, z ∈ depsOf s q →
          z ∈ depsOf ((injectF defs (n + 1) x args s).2) q := by
        intro x args s q z h
        rw [injectF_succ]
        cases hd : alookup defs x with
        | none => exact h
        | some d =>
          dsimp only
          have hre : z ∈ depsOf (recordEdge s x) q := depsOf_recordEdge_mono s x q z h
          by_cases ht : d.scopeType = TRANSIENT_SCOPE
          · rw [if_pos ht]
            cases hc : createRunF defs n d.body args
                { recordEdge s x with
                  context := { scope := s.context.scope, parentCreator := some x } } with
            | mk r s2 =>
              have hm := createRunF_depsMono defs n d.body args ihC
                { recordEdge s x with
                  context := { scope := s.context.scope, parentCreator := some x } } q z hre
              rw [hc] at hm
              cases r with
              | ok v =>
                  rw [runInContext_of_ok _ _ _ _ _ hc]
                  exact hm
              | error e =>
                  rw [runInContext_of_error _ _ _ _ _ hc]
                  exact hm
          · rw [if_neg ht]
            have hmiss : z ∈ depsOf ((missRunF defs n d x args
                (targetOf d s.context.scope) s.context.scope (recordEdge s x)).2) q :=
              missRunF_depsMono defs n d x args _ _ _ q z ihC hre
            cases hcg : cacheGet (recordEdge s x) (targetOf d s.context.scope) x with
            | none => exact hmiss
            | some v =>
              dsimp only
              by_cases htr : v.truthy
              · rw [if_pos htr]
                exact hre
              · rw [if_neg htr]
                exact hmiss
      refine ⟨hinj, ?_⟩
      intro calls s q z h
      cases calls with
      | nil => exact h
      | cons c rest =>
        rw [show interpCallsF defs (n + 1) (c :: rest) s
          = (match injectF defs n c.target c.args s with
             | (Except.ok _, s2) => interpCallsF defs n rest s2
             | (Except.error e, s2) => (Except.error e, s2)) from rfl]
        cases hi : injectF defs n c.target c.args s with
        | mk r s2 =>
          have h1 := ihI c.target c.args s q z h
          rw [hi] at h1
          cases r with
          | ok u =>
              dsimp only
              exact ihC rest s2 q z h1
          | error e =>
              exact h1

/-! ## Invariant: dependency edges come only from direct resolutions

An element can enter `q`'s dependency set only because an `inject` ran
while `q` was the ambient parent: either at the analysed call itself, or
from one of the direct nested calls written in `q`'s own factory body. -/

/-- The injectable ids a factory body resolves directly. -/
def callTargets (calls : List CallSpec) : List Nat :=
  calls.map (fun c => c.target)

theorem depsOf_recordEdge_cases (s : EngineState) (x q z : Nat)
    (h : z ∈ depsOf (recordEdge s x) q) :
    z ∈ depsOf s q ∨ (s.context.parentCreator = some q ∧ z = x) := by
  cases hp : s.context.parentCreator with
  | none =>
      simp only [recordEdge, hp] at h
      exact Or.inl h
  | some p =>
      simp only [recordEdge, hp] at h
      by_cases hq : q = p
      · subst hq
        rw [depsOf_addDep_self] at h
        rcases mem_of_mem_addOnce _ _ _ h with h1 | h1
        · exact Or.inl h1
        · exact Or.inr ⟨rfl, h1⟩
      · rw [depsOf_addDep_ne _ _ _ _ hq] at h
        exact Or.inl h

theorem createRunF_depsLocal (defs : Defs) (fuel : Nat) (b : FBody)
    (args : List Value)
    (ih : ∀ calls s q z, z ∈ depsOf ((interpCallsF defs fuel calls s).2) q →
       z ∈ depsOf s q
       ∨ (s.context.parentCreator = some q ∧ z ∈ callTargets calls)
       ∨ (∃ d, alookup defs q = some d ∧ z ∈ callTargets d.body.calls)) :
    ∀ s q z, z ∈ depsOf ((createRunF defs fuel b args s).2) q →
      z ∈ depsOf s q
      ∨ (s.context.parentCreator = some q ∧ z ∈ callTargets b.calls)
      ∨ (∃ d, alookup defs q = some d ∧ z ∈ callTargets d.body.calls) := by
  intro s q z h
  cases hi : interpCallsF defs fuel b.calls s with
  | mk r s3 =>
    have hm := ih b.calls s q z
    rw [hi] at hm
    cases r with
    | ok u =>
        rw [createRunF_of_ok _ _ _ _ _ _ _ hi, depsOf_retEval] at h
        exact hm h
    | error e =>
        rw [createRunF_of_error _ _ _ _ _ _ _ hi] at h
        exact hm h

theorem missRunF_depsLocal (defs : Defs) (fuel : Nat) (d : InjDef)
    (x : Nat) (args : List Value) (target scope : Nat) (s1 : EngineState)
    (q z : Nat)
    (ih : ∀ calls s q z, z ∈ depsOf ((interpCallsF defs fuel calls s).2) q →
       z ∈ depsOf s q
       ∨ (s.context.parentCreator = some q ∧ z ∈ callTargets calls)
       ∨ (∃ d, alookup defs q = some d ∧ z ∈ callTargets d.body.calls))
    (hdx : alookup defs x = some d)
    (h : z ∈ depsOf ((missRunF defs fuel d x args target scope s1).2) q) :
    z ∈ depsOf s1 q
    ∨ (∃ d2, alookup defs q = some d2 ∧ z ∈ callTargets d2.body.calls) := by
  cases hc : createRunF defs fuel d.body args
      { s1 with context := { scope := scope, parentCreator := some x } } with
  | mk r s2 =>
    have hcl := createRunF_depsLocal defs fuel d.body args ih
      { s1 with context := { scope := scope, parentCreator := some x } } q z
    rw [hc] at hcl
    have step : z ∈ depsOf s2 q →
        z ∈ depsOf s1 q
        ∨ (∃ d2, alookup defs q = some d2 ∧ z ∈ callTargets d2.body.calls) := by
      intro hz
      rcases hcl hz with h1 | h1 | h1
      · exact Or.inl h1
      · obtain ⟨hq, hz2⟩ := h1
        have hqx : q = x := by
          injection hq with hq2
          exact hq2.symm
        subst hqx
        exact Or.inr ⟨d, hdx, hz2⟩
      · exact Or.inr h1
    cases r with
    | ok v =>
        rw [missRunF_of_ok _ _ _ _ _ _ _ _ _ _ hc] at h
        have hz : z ∈ depsOf (cacheSet s2 target x v) q := h
        rw [depsOf_cacheSet] at hz
        exact step hz
    | error e =>
        rw [missRunF_of_error _ _ _ _ _ _ _ _ _ _ hc] at h
        exact step h

theorem depsLocal (defs : Defs) :
    ∀ fuel : Nat,
      (∀ x args s q z, z ∈ depsOf ((injectF defs fuel x args s).2) q →
        z ∈ depsOf s q
        ∨ (s.context.parentCreator = some q ∧ z = x)
        ∨ (∃ d, alookup defs q = some d ∧ z ∈ callTargets d.body.calls))
      ∧ (∀ calls s q z, z ∈ depsOf ((interpCallsF defs fuel calls s).2) q →
        z ∈ depsOf s q
        ∨ (s.context.parentCreator = some q ∧ z ∈ callTargets calls)
        ∨ (∃ d, alookup defs q = some d ∧ z ∈ callTargets d.body.calls)) := by
  intro fuel
  induction fuel with
  | zero =>
      refine ⟨fun x args s q z h => Or.inl h, fun calls s q z h => ?_⟩
      cases calls with
      | nil => exact Or.inl h
      | cons c rest => exact Or.inl h
  | succ n ih =>
      obtain ⟨ihI, ihC⟩ := ih
      have hinj : ∀ x args s q z, z ∈ depsOf ((injectF defs (n + 1) x args s).2) q →
          z ∈ depsOf s q
          ∨ (s.context.parentCreator = some q ∧ z = x)
          ∨ (∃ d, alookup defs q = some d ∧ z ∈ callTargets d.body.calls) := by
        intro x args s q z h
        rw [injectF_succ] at h
        cases hd : alookup defs x with
        | none =>
            rw [hd] at h
            exact Or.inl h
        | some d =>
          rw [hd] at h
          dsimp only at h
          have fromRecord : z ∈ depsOf (recordEdge s x) q →
              z ∈ depsOf s q ∨ (s.context.parentCreator = some q ∧ z = x)
              ∨ (∃ d2, alookup defs q = some d2 ∧ z ∈ callTargets d2.body.calls) := by
            intro hz
            rcases depsOf_recordEdge_cases s x q z hz with h1 | h1
            · exact Or.inl h1
            · exact Or.inr (Or.inl h1)
          by_cases ht : d.scopeType = TRANSIENT_SCOPE
          · rw [if_pos ht] at h
            cases hc : createRunF defs n d.body args
                { recordEdge s x with
                  context := { scope := s.context.scope, parentCreator := some x } } with
            | mk r s2 =>
              have hcl := createRunF_depsLocal defs n d.body args ihC
                { recordEdge s x with
                  context := { scope := s.context.scope, parentCreator := some x } } q z
              rw [hc] at hcl
              have step : z ∈ depsOf s2 q →
                  z ∈ depsOf s q ∨ (s.context.parentCreator = some q ∧ z = x)
                  ∨ (∃ d2, alookup defs q = some d2 ∧ z ∈ callTargets d2.body.calls) := by
                intro hz
                rcases hcl hz with h1 | h1 | h1
                · exact fromRecord h1
                · obtain ⟨hq, hz2⟩ := h1
                  have hqx : q = x := by
                    injection hq with hq2
                    exact hq2.symm
                  subst hqx
                  exact Or.inr (Or.inr ⟨d, hd, hz2⟩)
                · exact Or.inr (Or.inr h1)
              cases r with
              | ok v =>
                  rw [runInContext_of_ok _ _ _ _ _ hc] at h
                  exact step h
              | error e =>
                  rw [runInContext_of_error _ _ _ _ _ hc] at h
                  exact step h
          · rw [if_neg ht] at h
            have hmiss : z ∈ depsOf ((missRunF defs n d x args
                (targetOf d s.context.scope) s.context.scope (recordEdge s x)).2) q →
                z ∈ depsOf s q ∨ (s.context.parentCreator = some q ∧ z = x)
                ∨ (∃ d2, alookup defs q = some d2 ∧ z ∈ callTargets d2.body.calls) := by
              intro hz
              rcases missRunF_depsLocal defs n d x args _ _ _ q z ihC hd hz with h1 | h1
              · exact fromRecord h1
              · exact Or.inr (Or.inr h1)
            cases hcg : cacheGet (recordEdge s x) (targetOf d s.context.scope) x with
            | none =>
                rw [hcg] at h
                exact hmiss h
            | some v =>
              rw [hcg] at h
              dsimp only at h
              by_cases htr : v.truthy
              · rw [if_pos htr] at h
                exact fromRecord h
              · rw [if_neg htr] at h
                exact hmiss h
      refine ⟨hinj, ?_⟩
      intro calls s q z h
      cases calls with
      | nil => exact Or.inl h
      | cons c rest =>
        rw [show interpCallsF defs (n + 1) (c :: rest) s
          = (match injectF defs n c.target c.args s with
             | (Except.ok _, s2) => interpCallsF defs n rest s2
             | (Except.error e, s2) => (Except.error e, s2)) from rfl] at h
        cases hi : injectF defs n c.target c.args s with
        | mk r s2 =>
          rw [hi] at h
          have fromInj : z ∈ depsOf s2 q →
              z ∈ depsOf s q
              ∨ (s.context.parentCreator = some q ∧ z ∈ callTargets (c :: rest))
              ∨ (∃ d, alookup defs q = some d ∧ z ∈ callTargets d.body.calls) := by
            intro hz
            have h1 := ihI c.target c.args s q z
            rw [hi] at h1
            rcases h1 hz with h2 | h2 | h2
            · exact Or.inl h2
            · refine Or.inr (Or.inl ⟨h2.1, ?_⟩)
              rw [h2.2]
              simp [callTargets]
            · exact Or.inr (Or.inr h2)
          cases r with
          | ok u =>
              dsimp only at h
              rcases ihC rest s2 q z h with h1 | h1 | h1
              · exact fromInj h1
              · have hctx : s2.context = s.context :=
                  injectF_ok_context defs n c.target c.args s s2 u hi
                rw [hctx] at h1
                refine Or.inr (Or.inl ⟨h1.1, ?_⟩)
                simp only [callTargets, List.map_cons, List.mem_cons]
                exact Or.inr h1.2
              · exact Or.inr (Or.inr h1)
          | error e =>
              exact fromInj h

/-! ## Derived facts about single resolutions -/

theorem targetOf_singleton (d : InjDef) (amb : Nat)
    (h : d.scopeType = SINGLETON_SCOPE) : targetOf d amb = rootScopeId := by
  unfold targetOf
  rw [if_pos h]

theorem targetOf_scoped (d : InjDef) (amb : Nat)
    (h : d.scopeType = SCOPED_SCOPE) : targetOf d amb = amb := by
  unfold targetOf
  rw [h]
  rfl

theorem interpCallsF_nil (defs : Defs) (fuel : Nat) (s : EngineState) :
    interpCallsF defs fuel [] s = (Except.ok (), s) := by
  cases fuel <;> rfl

/-- Cache hit: a truthy cached instance is returned as-is; the explicit
arguments are discarded, the factory does not run, and the only state
change is the recorded dependency edge on the ambient parent. -/
theorem injectF_hit (defs : Defs) (fuel x : Nat) (d : InjDef)
    (args : List Value) (s : EngineState) (v : Value)
    (hd : alookup defs x = some d)
    (ht : d.scopeType ≠ TRANSIENT_SCOPE)
    (hcached : cacheGet s (targetOf d s.context.scope) x = some v)
    (htruthy : v.truthy = true) :
    injectF defs (fuel + 1) x args s = (Except.ok v, recordEdge s x) := by
  rw [injectF_succ, hd]
  dsimp only
  rw [if_neg ht]
  rw [show cacheGet (recordEdge s x) (targetOf d s.context.scope) x
    = cacheGet s (targetOf d s.context.scope) x from cacheGet_recordEdge _ _ _ _]
  rw [hcached]
  dsimp only
  rw [if_pos htruthy]

/-- Cache miss (no entry): resolution follows the miss path. -/
theorem injectF_missNone (defs : Defs) (fuel x : Nat) (d : InjDef)
    (args : List Value) (s : EngineState)
    (hd : alookup defs x = some d)
    (ht : d.scopeType ≠ TRANSIENT_SCOPE)
    (hcached : cacheGet s (targetOf d s.context.scope) x = none) :
    injectF defs (fuel + 1) x args s
      = missRunF defs fuel d x args (targetOf d s.context.scope)
          s.context.scope (recordEdge s x) := by
  rw [injectF_succ, hd]
  dsimp only
  rw [if_neg ht]
  rw [show cacheGet (recordEdge s x) (targetOf d s.context.scope) x
    = cacheGet s (targetOf d s.context.scope) x from cacheGet_recordEdge _ _ _ _]
  rw [hcached]

/-- Cache "hit" on a falsy cached value: treated exactly like a miss. -/
theorem injectF_missFalsy (defs : Defs) (fuel x : Nat) (d : InjDef)
    (args : List Value) (s : EngineState) (w : Value)
    (hd : alookup defs x = some d)
    (ht : d.scopeType ≠ TRANSIENT_SCOPE)
    (hcached : cacheGet s (targetOf d s.context.scope) x = some w)
    (hfalsy : w.truthy = false) :
    injectF defs (fuel + 1) x args s
      = missRunF defs fuel d x args (targetOf d s.context.scope)
          s.context.scope (recordEdge s x) := by
  rw [injectF_succ, hd]
  dsimp only
  rw [if_neg ht]
  rw [show cacheGet (recordEdge s x) (targetOf d s.context.scope) x
    = cacheGet s (targetOf d s.context.scope) x from cacheGet_recordEdge _ _ _ _]
  rw [hcached]
  dsimp only
  rw [if_neg (by rw [hfalsy]; exact Bool.false_ne_true)]

/-- Transient resolution: no cache is consulted, the factory always runs
under the swapped-in context. -/
theorem injectF_transient (defs : Defs) (fuel x : Nat) (d : InjDef)
    (args : List Value) (s : EngineState)
    (hd : alookup defs x = some d)
    (ht : d.scopeType = TRANSIENT_SCOPE) :
    injectF defs (fuel + 1) x args s
      = runInContext { scope := s.context.scope, parentCreator := some x }
          (createRunF defs fuel d.body args) (recordEdge s x) := by
  rw [injectF_succ, hd]
  dsimp only
  rw [if_pos ht]

/-- A factory whose return action allocates a fresh object produces, on
success, an object whose id was not allocated before the call and is
allocated after it. -/
theorem createRunF_ok_newObj (defs : Defs) (fuel : Nat) (b : FBody)
    (args : List Value) (s s2 : EngineState) (v : Value)
    (hb : b.ret = RetSpec.newObj)
    (h : createRunF defs fuel b args s = (Except.ok v, s2)) :
    ∃ i, v = Value.obj i ∧ s.nextId ≤ i ∧ i < s2.nextId := by
  cases hi : interpCallsF defs fuel b.calls s with
  | mk r s3 =>
    have hm := (nextId_mono defs fuel).2 b.calls s
    rw [hi] at hm
    cases r with
    | ok u =>
        rw [createRunF_of_ok _ _ _ _ _ _ _ hi, hb] at h
        injection h with h1 h2
        injection h1 with h1
        refine ⟨s3.nextId, h1.symm, hm, ?_⟩
        rw [← h2]
        exact Nat.lt_succ_self _
    | error e =>
        rw [createRunF_of_error _ _ _ _ _ _ _ hi] at h
        simp at h

/-- On a successful miss, the produced value is stored in the target cache
under the injectable's key (even when it is falsy). -/
theorem missRunF_ok_cache (defs : Defs) (fuel : Nat) (d : InjDef) (x : Nat)
    (args : List Value) (target scope : Nat) (s1 s' : EngineState) (v : Value)
    (h : missRunF defs fuel d x args target scope s1 = (Except.ok v, s')) :
    cacheGet s' target x = some v := by
  cases hc : createRunF defs fuel d.body args
      { s1 with context := { scope := scope, parentCreator := some x } } with
  | mk r s2 =>
    cases r with
    | ok v0 =>
        rw [missRunF_of_ok _ _ _ _ _ _ _ _ _ _ hc] at h
        injection h with h1 h2
        injection h1 with h1
        subst h1
        subst h2
        show cacheGet (cacheSet s2 target x v0) target x = some v0
        exact cacheGet_cacheSet_self _ _ _ _
    | error e =>
        rw [missRunF_of_error _ _ _ _ _ _ _ _ _ _ hc] at h
        simp at h

/-- On a successful miss with a fresh-object factory, the returned value is
a fresh object. -/
theorem missRunF_ok_fresh (defs : Defs) (fuel : Nat) (d : InjDef) (x : Nat)
    (args : List Value) (target scope : Nat) (s1 s' : EngineState) (v : Value)
    (hb : d.body.ret = RetSpec.newObj)
    (h : missRunF defs fuel d x args target scope s1 = (Except.ok v, s')) :
    ∃ i, v = Value.obj i ∧ s1.nextId ≤ i ∧ i < s'.nextId := by
  cases hc : createRunF defs fuel d.body args
      { s1 with context := { scope := scope, parentCreator := some x } } with
  | mk r s2 =>
    cases r with
    | ok v0 =>
        rw [missRunF_of_ok _ _ _ _ _ _ _ _ _ _ hc] at h
        injection h with h1 h2
        injection h1 with h1
        subst h1
        obtain ⟨i, hv, hle, hlt⟩ := createRunF_ok_newObj defs fuel d.body args _ _ _ hb hc
        refine ⟨i, hv, hle, ?_⟩
        rw [← h2]
        exact hlt
    | error e =>
        rw [missRunF_of_error _ _ _ _ _ _ _ _ _ _ hc] at h
        simp at h

/-! ## Facts about the public entry points -/

theorem cacheGet_eq_of_scopes_eq (a b : EngineState) (sid y : Nat)
    (h : a.scopes = b.scopes) : cacheGet a sid y = cacheGet b sid y := by
  unfold cacheGet cacheOf
  rw [h]

/-- A read through `use` never changes the state at all. -/
theorem useF_state (defs : Defs) (x : Nat) (s : EngineState) :
    (useF defs x s).2 = s := by
  unfold useF
  cases alookup defs x with
  | none => rfl
  | some d =>
      dsimp only
      cases cacheGet s (if d.scopeType = SINGLETON_SCOPE then rootScopeId
        else s.context.scope) x with
      | none => rfl
      | some v =>
          dsimp only
          by_cases htr : v.truthy
          · rw [if_pos htr]
          · rw [if_neg htr]

/-- Model of `scope.use` never changes the caches. -/
theorem scopeUse_snd_scopes (defs : Defs) (sid x : Nat) (s : EngineState) :
    ((scopeUse defs sid x s).2).scopes = s.scopes := by
  unfold scopeUse
  cases hu : useF defs x
      { s with context := { scope := sid, parentCreator := none } } with
  | mk r s2 =>
    have hst := useF_state defs x
      { s with context := { scope := sid, parentCreator := none } }
    rw [hu] at hst
    subst hst
    cases r with
    | ok v => rw [runInContext_of_ok _ _ _ _ _ hu]
    | error e => rw [runInContext_of_error _ _ _ _ _ hu]

/-- The resolution performed by `scope.inject` cannot write cache slots
that are untouchable under that scope as the ambient scope. -/
theorem scopeInject_cacheGet (defs : Defs) (fuel sid0 x : Nat)
    (args : List Value) (s : EngineState) (sid y : Nat)
    (hU : untouched defs y sid sid0) :
    cacheGet ((scopeInject defs fuel sid0 x args s).2) sid y
      = cacheGet s sid y := by
  unfold scopeInject
  cases hin : injectF defs fuel x args
      { s with context := { scope := sid0, parentCreator := some x } } with
  | mk r s2 =>
    have hl := (cacheLocal defs fuel).1 x args
      { s with context := { scope := sid0, parentCreator := some x } } sid y hU
    rw [hin] at hl
    cases r with
    | ok v =>
        rw [runInContext_of_ok _ _ _ _ _ hin]
        show cacheGet s2 sid y = cacheGet s sid y
        exact hl
    | error e =>
        rw [runInContext_of_error _ _ _ _ _ hin]
        exact hl

/-- For a transient injectable, no public operation can create a cache
entry under its key. -/
theorem runOp_transient_none (defs : Defs) (fuel x : Nat) (d : InjDef)
    (op : Op) (s : EngineState)
    (hd : alookup defs x = some d)
    (ht : d.scopeType = TRANSIENT_SCOPE)
    (h : ∀ sid, cacheGet s sid x = none) :
    ∀ sid, cacheGet (runOp defs fuel op s) sid x = none := by
  intro sid
  have hU : ∀ amb, untouched defs x sid amb := by
    intro amb d2 hd2
    rw [hd] at hd2
    injection hd2 with hd2
    subst hd2
    exact Or.inl ht
  cases op with
  | inj y args =>
      show cacheGet ((injectF defs fuel y args s).2) sid x = none
      rw [(cacheLocal defs fuel).1 y args s sid x (hU s.context.scope)]
      exact h sid
  | sInj sid0 y args =>
      show cacheGet ((scopeInject defs fuel sid0 y args s).2) sid x = none
      rw [scopeInject_cacheGet defs fuel sid0 y args s sid x (hU sid0)]
      exact h sid
  | usE y =>
      show cacheGet ((useF defs y s).2) sid x = none
      rw [useF_state]
      exact h sid
  | sUse sid0 y =>
      show cacheGet ((scopeUse defs sid0 y s).2) sid x = none
      rw [cacheGet_eq_of_scopes_eq _ s sid x (scopeUse_snd_scopes defs sid0 y s)]
      exact h sid
  | reset sid0 =>
      show cacheGet (resetScope sid0 s) sid x = none
      unfold cacheGet cacheOf resetScope
      by_cases hs : sid = sid0
      · subst hs
        rw [show alookup (aset s.scopes sid []) sid = some [] from
          alookup_aset_self _ _ _]
        rfl
      · rw [alookup_aset_ne _ _ _ _ hs]
        exact h sid

theorem runOps_transient_none (defs : Defs) (fuel x : Nat) (d : InjDef)
    (hd : alookup defs x = some d)
    (ht : d.scopeType = TRANSIENT_SCOPE) :
    ∀ (ops : List Op) (s : EngineState),
      (∀ sid, cacheGet s sid x = none) →
      ∀ sid, cacheGet (runOps defs fuel ops s) sid x = none := by
  intro ops
  induction ops with
  | nil => intro s h sid; exact h sid
  | cons op rest ih =>
      intro s h sid
      exact ih (runOp defs fuel op s)
        (runOp_transient_none defs fuel x d op s hd ht h) sid

/-- Everything recorded at the moment the edge is added survives to the
end of the resolution. -/
theorem injectF_deps_supset_record (defs : Defs) (n x : Nat) (d : InjDef)
    (args : List Value) (s : EngineState) (q z : Nat)
    (hd : alookup defs x = some d)
    (hre : z ∈ depsOf (recordEdge s x) q) :
    z ∈ depsOf ((injectF defs (n + 1) x args s).2) q := by
  rw [injectF_succ, hd]
  dsimp only
  by_cases ht : d.scopeType = TRANSIENT_SCOPE
  · rw [if_pos ht]
    cases hc : createRunF defs n d.body args
        { recordEdge s x with
          context := { scope := s.context.scope, parentCreator := some x } } with
    | mk r s2 =>
      have hm := createRunF_depsMono defs n d.body args (depsMono defs n).2
        { recordEdge s x with
          context := { scope := s.context.scope, parentCreator := some x } } q z hre
      rw [hc] at hm
      cases r with
      | ok v =>
          rw [runInContext_of_ok _ _ _ _ _ hc]
          exact hm
      | error e =>
          rw [runInContext_of_error _ _ _ _ _ hc]
          exact hm
  · rw [if_neg ht]
    have hmiss : z ∈ depsOf ((missRunF defs n d x args
        (targetOf d s.context.scope) s.context.scope (recordEdge s x)).2) q :=
      missRunF_depsMono defs n d x args _ _ _ q z (depsMono defs n).2 hre
    cases hcg : cacheGet (recordEdge s x) (targetOf d s.context.scope) x with
    | none => exact hmiss
    | some v =>
      dsimp only
      by_cases htr : v.truthy
      · rw [if_pos htr]
        exact hre
      · rw [if_neg htr]
        exact hmiss

/-- Eliminate a successful `scope.inject`: the inner `inject` ran under the
swapped-in context and returned the same value; the final state is the
inner final state with the caller's context restored. -/
theorem scopeInject_ok_elim (defs : Defs) (fuel sid x : Nat)
    (args : List Value) (s0 s1 : EngineState) (v1 : Value)
    (h1 : scopeInject defs fuel sid x args s0 = (Except.ok v1, s1)) :
    ∃ s1pre, injectF defs fuel x args
        { s0 with context := { scope := sid, parentCreator := some x } }
        = (Except.ok v1, s1pre)
      ∧ s1 = { s1pre with context := s0.context } := by
  unfold scopeInject at h1
  cases hin : injectF defs fuel x args
      { s0 with context := { scope := sid, parentCreator := some x } } with
  | mk r s2 =>
    cases r with
    | ok v =>
        rw [runInContext_of_ok _ _ _ _ _ hin] at h1
        injection h1 with ha hb
        injection ha with ha
        subst ha
        exact ⟨s2, rfl, hb.symm⟩
    | error e =>
        rw [runInContext_of_error _ _ _ _ _ hin] at h1
        simp at h1

/-- A successful first (cache-missing) resolution stores its result in the
target cache, and — when the factory allocates a fresh object — returns an
object allocated during the call. -/
theorem injectF_ok_first (defs : Defs) (fuel x : Nat) (d : InjDef)
    (args : List Value) (s s' : EngineState) (v : Value)
    (hd : alookup defs x = some d)
    (ht : d.scopeType ≠ TRANSIENT_SCOPE)
    (hmiss : cacheGet s (targetOf d s.context.scope) x = none)
    (h : injectF defs fuel x args s = (Except.ok v, s')) :
    cacheGet s' (targetOf d s.context.scope) x = some v
    ∧ (d.body.ret = RetSpec.newObj →
        ∃ i, v = Value.obj i ∧ s.nextId ≤ i ∧ i < s'.nextId) := by
  cases fuel with
  | zero =>
      rw [show injectF defs 0 x args s = (Except.error Err.fuel, s) from rfl] at h
      simp at h
  | succ n =>
      rw [injectF_missNone defs n x d args s hd ht hmiss] at h
      refine ⟨missRunF_ok_cache defs n d x args _ _ _ _ _ h, fun hb => ?_⟩
      obtain ⟨i, hv, hge, hlt⟩ := missRunF_ok_fresh defs n d x args _ _ _ _ _ hb h
      rw [recordEdge_nextId] at hge
      exact ⟨i, hv, hge, hlt⟩

/-! ## The claims -/

/-- C1 (counterexample to the claim as stated): when the function passed to
`runInContext` raises, the error does propagate unchanged, but the
previously saved context binding is NOT restored — the cell still holds the
swapped-in binding after the abnormal return.  Witnessed at a concrete
input: old binding `{scope 0, no parent}`, new binding `{scope 1, parent 5}`,
`fn` always throws error 7. -/
theorem claim_C1_counterexample :
    (runInContext { scope := 1, parentCreator := some 5 }
        (fun s' => ((Except.error (Err.thrown 7) : Except Err Value), s')) initState).1
      = Except.error (Err.thrown 7)
    ∧ ((runInContext { scope := 1, parentCreator := some 5 }
        (fun s' => ((Except.error (Err.thrown 7) : Except Err Value), s')) initState).2).context
      = { scope := 1, parentCreator := some 5 }
    ∧ initState.context ≠ ({ scope := 1, parentCreator := some 5 } : Context) := by
  refine ⟨rfl, rfl, ?_⟩
  decide

/-- C1 (amended): `runInContext` swaps in the new binding and invokes `fn`;
when `fn` returns normally the prior binding is restored and `fn`'s result
is returned; when `fn` raises, the error propagates unchanged to the caller
but the prior binding is NOT restored — the context cell is left exactly as
`fn` left it. -/
theorem claim_C1_amended {α : Type} (newCtx : Context)
    (fn : EngineState → Except Err α × EngineState) (s : EngineState) :
    (∀ v s2, fn { s with context := newCtx } = (Except.ok v, s2) →
      runInContext newCtx fn s = (Except.ok v, { s2 with context := s.context }))
    ∧ (∀ e s2, fn { s with context := newCtx } = (Except.error e, s2) →
      runInContext newCtx fn s = (Except.error e, s2)) :=
  ⟨fun v s2 h => runInContext_of_ok newCtx fn s s2 v h,
   fun e s2 h => runInContext_of_error newCtx fn s s2 e h⟩

/-- Closed witness for C1 (amended), at a concrete normally-returning `fn`:
the prior binding is restored. -/
theorem claim_C1_witness :
    runInContext { scope := 1, parentCreator := some 5 }
        (fun s' => (Except.ok (0 : Nat), s')) initState
      = (Except.ok 0, initState) := by
  have h := (claim_C1_amended { scope := 1, parentCreator := some 5 }
    (fun s' => (Except.ok (0 : Nat), s')) initState).1 0
    { initState with context := { scope := 1, parentCreator := some 5 } } rfl
  exact h.trans rfl

/-- C2: for an injectable with SINGLETON lifetime (and an object-producing
factory), a first successful resolution from any scope stores the instance
in the root scope's cache and in no other scope's cache, and every later
`inject` — from any ambient context, or scope-bound through any
`scope.inject` — returns that identical instance (the only state change of
a later call being the recorded dependency edge). -/
theorem claim_C2 (defs : Defs) (fuel x : Nat) (d : InjDef)
    (args1 args2 : List Value) (sidA : Nat) (c2 : Context)
    (s0 s1 : EngineState) (v1 : Value)
    (hd : alookup defs x = some d)
    (hsing : d.scopeType = SINGLETON_SCOPE)
    (hb : d.body.ret = RetSpec.newObj)
    (hclean : ∀ sid, cacheGet s0 sid x = none)
    (h1 : scopeInject defs fuel sidA x args1 s0 = (Except.ok v1, s1)) :
    cacheGet s1 rootScopeId x = some v1
    ∧ (∀ sid, sid ≠ rootScopeId → cacheGet s1 sid x = none)
    ∧ (∀ f2, injectF defs (f2 + 1) x args2 { s1 with context := c2 }
        = (Except.ok v1, recordEdge { s1 with context := c2 } x))
    ∧ (∀ f2 sidB, scopeInject defs (f2 + 1) sidB x args2 s1
        = (Except.ok v1,
           { recordEdge
               { s1 with context := { scope := sidB, parentCreator := some x } } x
             with context := s1.context })) := by
  have hnt : d.scopeType ≠ TRANSIENT_SCOPE := by
    rw [hsing]
    decide
  obtain ⟨s1pre, hin, hs1⟩ := scopeInject_ok_elim defs fuel sidA x args1 s0 s1 v1 h1
  obtain ⟨hcache1, hfresh1⟩ := injectF_ok_first defs fuel x d args1
    { s0 with context := { scope := sidA, parentCreator := some x } } s1pre v1 hd hnt
    (by rw [targetOf_singleton d _ hsing]; exact hclean rootScopeId) hin
  rw [targetOf_singleton d _ hsing] at hcache1
  obtain ⟨i1, hv1, _, _⟩ := hfresh1 hb
  have htruthy : v1.truthy = true := by rw [hv1]; rfl
  have hroot : cacheGet s1 rootScopeId x = some v1 := by
    rw [hs1]
    exact hcache1
  have hothers : ∀ sid, sid ≠ rootScopeId → cacheGet s1 sid x = none := by
    intro sid hsid
    have hU : untouched defs x sid sidA := by
      intro d2 hd2
      rw [hd] at hd2
      injection hd2 with hd2
      subst hd2
      exact Or.inr (by rw [targetOf_singleton d _ hsing]; exact hsid)
    have hloc := (cacheLocal defs fuel).1 x args1
      { s0 with context := { scope := sidA, parentCreator := some x } } sid x hU
    rw [hin] at hloc
    rw [hs1]
    show cacheGet s1pre sid x = none
    rw [hloc]
    exact hclean sid
  refine ⟨hroot, hothers, ?_, ?_⟩
  · intro f2
    exact injectF_hit defs f2 x d args2 { s1 with context := c2 } v1 hd hnt
      (by rw [targetOf_singleton d _ hsing]; exact hroot) htruthy
  · intro f2 sidB
    have hh := injectF_hit defs f2 x d args2
      { s1 with context := { scope := sidB, parentCreator := some x } } v1 hd hnt
      (by rw [targetOf_singleton d _ hsing]; exact hroot) htruthy
    unfold scopeInject
    exact runInContext_of_ok _ _ _ _ _ hh

/-- Closed witness for C2: the concrete singleton `() => ({})` factory,
first resolved through a fresh scope 5, then re-resolved from another
ambient context and through another scope 7. -/
def defsSingleton : Defs :=
  [(1, ⟨SINGLETON_SCOPE, ⟨[], RetSpec.newObj⟩⟩)]

def s1C2 : EngineState := (scopeInject defsSingleton 3 5 1 [] initState).2

theorem claim_C2_witness :
    cacheGet s1C2 rootScopeId 1 = some (Value.obj 0)
    ∧ cacheGet s1C2 6 1 = none
    ∧ injectF defsSingleton 4 1 []
        { s1C2 with context := { scope := 9, parentCreator := none } }
      = (Except.ok (Value.obj 0),
         recordEdge { s1C2 with context := { scope := 9, parentCreator := none } } 1)
    ∧ scopeInject defsSingleton 4 7 1 [] s1C2
      = (Except.ok (Value.obj 0),
         { recordEdge { s1C2 with context := { scope := 7, parentCreator := some 1 } } 1
           with context := s1C2.context }) := by
  obtain ⟨h1, h2, h3, h4⟩ := claim_C2 defsSingleton 3 1
    ⟨SINGLETON_SCOPE, ⟨[], RetSpec.newObj⟩⟩ [] [] 5
    { scope := 9, parentCreator := none } initState s1C2 (Value.obj 0)
    rfl rfl rfl (fun _ => rfl) rfl
  exact ⟨h1, h2 6 (by decide), h3 3, h4 3 7⟩

/-- C3: for an injectable with SCOPED lifetime (and an object-producing
factory), resolutions through two distinct scopes produce distinct
instances, each cached only in its own scope's cache; resolving again
through the first scope returns that scope's instance unchanged. -/
theorem claim_C3 (defs : Defs) (fuel1 fuel2 x : Nat) (d : InjDef)
    (args1 args2 : List Value) (sidA sidB : Nat)
    (s0 s1 s2 : EngineState) (v1 v2 : Value)
    (hd : alookup defs x = some d)
    (hsc : d.scopeType = SCOPED_SCOPE)
    (hb : d.body.ret = RetSpec.newObj)
    (hAB : sidA ≠ sidB)
    (hclean : ∀ sid, cacheGet s0 sid x = none)
    (h1 : scopeInject defs fuel1 sidA x args1 s0 = (Except.ok v1, s1))
    (h2 : scopeInject defs fuel2 sidB x args2 s1 = (Except.ok v2, s2)) :
    v1 ≠ v2
    ∧ cacheGet s2 sidA x = some v1
    ∧ cacheGet s2 sidB x = some v2
    ∧ (∀ sid, sid ≠ sidA → sid ≠ sidB → cacheGet s2 sid x = none)
    ∧ (∀ f3 args3, scopeInject defs (f3 + 1) sidA x args3 s2
        = (Except.ok v1,
           { recordEdge
               { s2 with context := { scope := sidA, parentCreator := some x } } x
             with context := s2.context })) := by
  have hnt : d.scopeType ≠ TRANSIENT_SCOPE := by
    rw [hsc]
    decide
  -- first resolution, under scope A
  obtain ⟨s1pre, hin1, hs1⟩ := scopeInject_ok_elim defs fuel1 sidA x args1 s0 s1 v1 h1
  obtain ⟨hcache1, hfresh1⟩ := injectF_ok_first defs fuel1 x d args1
    { s0 with context := { scope := sidA, parentCreator := some x } } s1pre v1 hd hnt
    (by rw [targetOf_scoped d _ hsc]; exact hclean sidA) hin1
  rw [targetOf_scoped d _ hsc] at hcache1
  obtain ⟨i1, hv1, _, hlt1⟩ := hfresh1 hb
  have hA1 : cacheGet s1 sidA x = some v1 := by
    rw [hs1]
    exact hcache1
  have hO1 : ∀ sid, sid ≠ sidA → cacheGet s1 sid x = none := by
    intro sid hsid
    have hU : untouched defs x sid sidA := by
      intro d2 hd2
      rw [hd] at hd2
      injection hd2 with hd2
      subst hd2
      exact Or.inr (by rw [targetOf_scoped d _ hsc]; exact hsid)
    have hloc := (cacheLocal defs fuel1).1 x args1
      { s0 with context := { scope := sidA, parentCreator := some x } } sid x hU
    rw [hin1] at hloc
    rw [hs1]
    show cacheGet s1pre sid x = none
    rw [hloc]
    exact hclean sid
  -- second resolution, under scope B
  obtain ⟨s2pre, hin2, hs2⟩ := scopeInject_ok_elim defs fuel2 sidB x args2 s1 s2 v2 h2
  obtain ⟨hcache2, hfresh2⟩ := injectF_ok_first defs fuel2 x d args2
    { s1 with context := { scope := sidB, parentCreator := some x } } s2pre v2 hd hnt
    (by rw [targetOf_scoped d _ hsc]; exact hO1 sidB (fun hc => hAB hc.symm)) hin2
  rw [targetOf_scoped d _ hsc] at hcache2
  obtain ⟨i2, hv2, hge2, _⟩ := hfresh2 hb
  have hB2 : cacheGet s2 sidB x = some v2 := by
    rw [hs2]
    exact hcache2
  have hpres2 : ∀ sid, sid ≠ sidB → cacheGet s2 sid x = cacheGet s1 sid x := by
    intro sid hsid
    have hU : untouched defs x sid sidB := by
      intro d2 hd2
      rw [hd] at hd2
      injection hd2 with hd2
      subst hd2
      exact Or.inr (by rw [targetOf_scoped d _ hsc]; exact hsid)
    have hloc := (cacheLocal defs fuel2).1 x args2
      { s1 with context := { scope := sidB, parentCreator := some x } } sid x hU
    rw [hin2] at hloc
    rw [hs2]
    show cacheGet s2pre sid x = cacheGet s1 sid x
    exact hloc
  have hA2 : cacheGet s2 sidA x = some v1 := by
    rw [hpres2 sidA hAB]
    exact hA1
  have hne : v1 ≠ v2 := by
    have hs1n : s1.nextId = s1pre.nextId := by rw [hs1]
    have h2b : s1pre.nextId ≤ i2 := by
      rw [← hs1n]
      exact hge2
    rw [hv1, hv2]
    intro heq
    injection heq with heq
    omega
  refine ⟨hne, hA2, hB2, ?_, ?_⟩
  · intro sid hsA hsB
    rw [hpres2 sid hsB]
    exact hO1 sid hsA
  · intro f3 args3
    have htruthy : v1.truthy = true := by rw [hv1]; rfl
    have hh := injectF_hit defs f3 x d args3
      { s2 with context := { scope := sidA, parentCreator := some x } } v1 hd hnt
      (by rw [targetOf_scoped d _ hsc]; exact hA2) htruthy
    unfold scopeInject
    exact runInContext_of_ok _ _ _ _ _ hh

/-- Closed witness for C3: the concrete scoped `() => ({})` factory under
scopes 5 and 6. -/
def defsScoped : Defs :=
  [(1, ⟨SCOPED_SCOPE, ⟨[], RetSpec.newObj⟩⟩)]

def s1C3 : EngineState := (scopeInject defsScoped 3 5 1 [] initState).2

def s2C3 : EngineState := (scopeInject defsScoped 3 6 1 [] s1C3).2

theorem claim_C3_witness :
    Value.obj 0 ≠ Value.obj 1
    ∧ cacheGet s2C3 5 1 = some (Value.obj 0)
    ∧ cacheGet s2C3 6 1 = some (Value.obj 1)
    ∧ cacheGet s2C3 rootScopeId 1 = none
    ∧ scopeInject defsScoped 4 5 1 [] s2C3
      = (Except.ok (Value.obj 0),
         { recordEdge
             { s2C3 with context := { scope := 5, parentCreator := some 1 } } 1
           with context := s2C3.context }) := by
  obtain ⟨hne, hA, hB, hO, hagain⟩ := claim_C3 defsScoped 3 3 1
    ⟨SCOPED_SCOPE, ⟨[], RetSpec.newObj⟩⟩ [] [] 5 6 initState s1C3 s2C3
    (Value.obj 0) (Value.obj 1)
    rfl rfl rfl (by decide) (fun _ => rfl) rfl rfl
  exact ⟨hne, hA, hB, hO rootScopeId (by decide) (by decide), hagain 3 []⟩

/-- C4: for an injectable with TRANSIENT lifetime, every successful
`inject` returns a value freshly produced by the factory during that very
call (witnessed by a fresh allocation id, regardless of what any cache
holds), and no sequence of public operations can ever put an entry for the
injectable into any scope's cache. -/
theorem claim_C4 (defs : Defs) (x : Nat) (d : InjDef)
    (hd : alookup defs x = some d)
    (ht : d.scopeType = TRANSIENT_SCOPE) :
    (∀ fuel args (s s1 : EngineState) (v : Value), d.body.ret = RetSpec.newObj →
      injectF defs fuel x args s = (Except.ok v, s1) →
      ∃ i, v = Value.obj i ∧ s.nextId ≤ i ∧ i < s1.nextId)
    ∧ (∀ fuel (ops : List Op) (s : EngineState),
        (∀ sid, cacheGet s sid x = none) →
        ∀ sid, cacheGet (runOps defs fuel ops s) sid x = none) := by
  constructor
  · intro fuel args s s1 v hb h
    cases fuel with
    | zero =>
        rw [show injectF defs 0 x args s = (Except.error Err.fuel, s) from rfl] at h
        simp at h
    | succ n =>
        rw [injectF_transient defs n x d args s hd ht] at h
        cases hc : createRunF defs n d.body args
            { recordEdge s x with
              context := { scope := s.context.scope, parentCreator := some x } } with
        | mk r s2 =>
          cases r with
          | ok v0 =>
              rw [runInContext_of_ok _ _ _ _ _ hc] at h
              injection h with ha hbb
              injection ha with ha
              subst ha
              obtain ⟨i, hv, hge, hlt⟩ := createRunF_ok_newObj defs n d.body args _ _ _ hb hc
              refine ⟨i, hv, ?_, ?_⟩
              · rw [show ({ recordEdge s x with
                  context := { scope := s.context.scope, parentCreator := some x } }
                    : EngineState).nextId = s.nextId from recordEdge_nextId s x] at hge
                exact hge
              · rw [← hbb]
                exact hlt
          | error e =>
              rw [runInContext_of_error _ _ _ _ _ hc] at h
              simp at h
  · intro fuel ops s h sid
    exact runOps_transient_none defs fuel x d hd ht ops s h sid

/-- Closed witness for C4: two consecutive transient resolutions return the
distinct fresh objects 0 and 1, and a mixed operation sequence leaves every
cache free of the transient key. -/
def defsTransient : Defs :=
  [(1, ⟨TRANSIENT_SCOPE, ⟨[], RetSpec.newObj⟩⟩)]

def s1C4 : EngineState := (injectF defsTransient 3 1 [] initState).2

theorem claim_C4_witness :
    (∃ i, Value.obj 0 = Value.obj i ∧ initState.nextId ≤ i ∧ i < s1C4.nextId)
    ∧ (∃ i, Value.obj 1 = Value.obj i ∧ s1C4.nextId ≤ i
        ∧ i < ((injectF defsTransient 3 1 [] s1C4).2).nextId)
    ∧ cacheGet (runOps defsTransient 3
        [Op.inj 1 [], Op.sInj 5 1 [], Op.usE 1, Op.reset 5] initState) 5 1 = none := by
  obtain ⟨hfresh, hnone⟩ := claim_C4 defsTransient 1
    ⟨TRANSIENT_SCOPE, ⟨[], RetSpec.newObj⟩⟩ rfl rfl
  refine ⟨?_, ?_, ?_⟩
  · exact hfresh 3 [] initState s1C4 (Value.obj 0) rfl rfl
  · exact hfresh 3 [] s1C4 (injectF defsTransient 3 1 [] s1C4).2 (Value.obj 1) rfl rfl
  · exact hnone 3 [Op.inj 1 [], Op.sInj 5 1 [], Op.usE 1, Op.reset 5] initState
      (fun _ => rfl) 5

/-- Concrete dependency graph for the edge-recording scenario:
injectable 3 ("A") directly resolves 1 ("B") then 2 ("C"). -/
def defsABC : Defs :=
  [ (1, ⟨SINGLETON_SCOPE, ⟨[], RetSpec.newObj⟩⟩)
  , (2, ⟨SINGLETON_SCOPE, ⟨[], RetSpec.newObj⟩⟩)
  , (3, ⟨SINGLETON_SCOPE, ⟨[⟨1, []⟩, ⟨2, []⟩], RetSpec.newObj⟩⟩) ]

/-- C5: when `inject(y)` runs while `x` is the ambient parent, `y` is added
to `x`'s dependency set whatever the outcome (hit, miss or error), and the
call does not record `x` in `y`'s own dependency set (an edge into `y`'s
set can only come from `y`'s own direct calls); concretely, resolving A
(which resolves B then C directly) yields `A.deps = {B, C}` with B and C
recording nothing. -/
theorem claim_C5 (defs : Defs) (fuel x y : Nat) (dy : InjDef)
    (args : List Value) (s : EngineState)
    (hy : alookup defs y = some dy)
    (hpar : s.context.parentCreator = some x) :
    y ∈ depsOf ((injectF defs (fuel + 1) y args s).2) x
    ∧ (x ≠ y → x ∉ depsOf s y → x ∉ callTargets dy.body.calls →
        x ∉ depsOf ((injectF defs (fuel + 1) y args s).2) y)
    ∧ (depsOf ((injectF defsABC 5 3 [] initState).2) 3 = [1, 2]
       ∧ depsOf ((injectF defsABC 5 3 [] initState).2) 1 = []
       ∧ depsOf ((injectF defsABC 5 3 [] initState).2) 2 = []) := by
  refine ⟨?_, ?_, by decide, by decide, by decide⟩
  · have hre : y ∈ depsOf (recordEdge s y) x := by
      simp only [recordEdge, hpar]
      rw [depsOf_addDep_self]
      exact mem_addOnce_self _ _
    exact injectF_deps_supset_record defs fuel y dy args s x y hy hre
  · intro hxy hnot hcalls hmem
    rcases (depsLocal defs (fuel + 1)).1 y args s y x hmem with h1 | h1 | h1
    · exact hnot h1
    · have h2 : some x = some y := hpar.symm.trans h1.1
      injection h2 with h2
      exact hxy h2
    · obtain ⟨d2, hd2, hmem2⟩ := h1
      rw [hy] at hd2
      injection hd2 with hd2
      subst hd2
      exact hcalls hmem2

/-- Closed witness for C5: with 9 as the ambient parent, resolving 1 adds
the edge 9 → 1 but no reverse edge; and the A/B/C scenario's sets. -/
def sC5 : EngineState :=
  { initState with context := { scope := 0, parentCreator := some 9 } }

theorem claim_C5_witness :
    1 ∈ depsOf ((injectF defsABC 2 1 [] sC5).2) 9
    ∧ 9 ∉ depsOf ((injectF defsABC 2 1 [] sC5).2) 1
    ∧ depsOf ((injectF defsABC 5 3 [] initState).2) 3 = [1, 2] := by
  obtain ⟨h1, h2, h3, _, _⟩ := claim_C5 defsABC 1 9 1
    ⟨SINGLETON_SCOPE, ⟨[], RetSpec.newObj⟩⟩ [] sC5 rfl rfl
  exact ⟨h1, h2 (by decide) (by decide) (by decide), h3⟩

/-- C10: `scope.inject(x)` installs `x` itself as the ambient parent before
delegating to `inject`, so the entry-point resolution records a self-edge:
afterwards `x`'s dependency set contains `x` itself. -/
theorem claim_C10 (defs : Defs) (fuel sid x : Nat) (d : InjDef)
    (args : List Value) (s : EngineState)
    (hd : alookup defs x = some d) :
    x ∈ depsOf ((scopeInject defs (fuel + 1) sid x args s).2) x := by
  unfold scopeInject
  cases hin : injectF defs (fuel + 1) x args
      { s with context := { scope := sid, parentCreator := some x } } with
  | mk r s2 =>
    have hmem : x ∈ depsOf s2 x := by
      have hre : x ∈ depsOf (recordEdge
          { s with context := { scope := sid, parentCreator := some x } } x) x := by
        show x ∈ depsOf (addDep
          { s with context := { scope := sid, parentCreator := some x } } x x) x
        rw [depsOf_addDep_self]
        exact mem_addOnce_self _ _
      have hsup := injectF_deps_supset_record defs fuel x d args
        { s with context := { scope := sid, parentCreator := some x } } x x hd hre
      rw [hin] at hsup
      exact hsup
    cases r with
    | ok v =>
        rw [runInContext_of_ok _ _ _ _ _ hin]
        exact hmem
    | error e =>
        rw [runInContext_of_error _ _ _ _ _ hin]
        exact hmem

/-- Closed witness for C10: resolving the singleton 1 through scope 5
leaves `1 ∈ deps(1)`. -/
theorem claim_C10_witness :
    1 ∈ depsOf ((scopeInject defsSingleton 3 5 1 [] initState).2) 1 :=
  claim_C10 defsSingleton 2 5 1
    ⟨SINGLETON_SCOPE, ⟨[], RetSpec.newObj⟩⟩ [] initState rfl

/-! ## Facts about `use` -/

theorem useF_fst_some_truthy (defs : Defs) (x : Nat) (d : InjDef)
    (s : EngineState) (v : Value)
    (hd : alookup defs x = some d)
    (hcg : cacheGet s (targetOf d s.context.scope) x = some v)
    (htr : v.truthy = true) :
    (useF defs x s).1 = Except.ok v := by
  unfold useF
  rw [hd]
  dsimp only
  unfold targetOf at hcg
  rw [hcg]
  dsimp only
  rw [if_pos htr]

theorem useF_fst_none (defs : Defs) (x : Nat) (d : InjDef) (s : EngineState)
    (hd : alookup defs x = some d)
    (hcg : cacheGet s (targetOf d s.context.scope) x = none) :
    (useF defs x s).1 = Except.ok Value.undef := by
  unfold useF
  rw [hd]
  dsimp only
  unfold targetOf at hcg
  rw [hcg]

theorem useF_fst_some_falsy (defs : Defs) (x : Nat) (d : InjDef)
    (s : EngineState) (v : Value)
    (hd : alookup defs x = some d)
    (hcg : cacheGet s (targetOf d s.context.scope) x = some v)
    (htr : v.truthy = false) :
    (useF defs x s).1 = Except.ok Value.undef := by
  unfold useF
  rw [hd]
  dsimp only
  unfold targetOf at hcg
  rw [hcg]
  dsimp only
  rw [if_neg (by rw [htr]; exact Bool.false_ne_true)]

theorem useF_ok (defs : Defs) (x : Nat) (d : InjDef) (s : EngineState)
    (hd : alookup defs x = some d) :
    ∃ w, useF defs x s = (Except.ok w, s) := by
  unfold useF
  rw [hd]
  dsimp only
  cases hcg : cacheGet s (if d.scopeType = SINGLETON_SCOPE then rootScopeId
      else s.context.scope) x with
  | none => exact ⟨Value.undef, rfl⟩
  | some v =>
      dsimp only
      by_cases htr : v.truthy
      · rw [if_pos htr]
        exact ⟨v, rfl⟩
      · rw [if_neg htr]
        exact ⟨Value.undef, rfl⟩

theorem scopeUse_state (defs : Defs) (sid x : Nat) (d : InjDef)
    (s : EngineState) (hd : alookup defs x = some d) :
    (scopeUse defs sid x s).2 = s := by
  obtain ⟨w, hw⟩ := useF_ok defs x d
    { s with context := { scope := sid, parentCreator := none } } hd
  unfold scopeUse
  rw [runInContext_of_ok _ _ _ _ _ hw]

/-- Miss path of a leaf factory (no nested calls) whose return action
neither allocates nor fails: the produced value is returned and stored. -/
theorem missRunF_leaf (defs : Defs) (fuel : Nat) (d : InjDef) (x : Nat)
    (rs : RetSpec) (args : List Value) (target scope : Nat)
    (s1 : EngineState) (v : Value)
    (hb : d.body = ⟨[], rs⟩)
    (hv : ∀ sc : EngineState, retEval rs args sc = (Except.ok v, sc)) :
    missRunF defs fuel d x args target scope s1
      = (Except.ok v,
         { cacheSet { s1 with context := { scope := scope, parentCreator := some x } }
             target x v
           with context := s1.context }) := by
  have hcr : createRunF defs fuel d.body args
      { s1 with context := { scope := scope, parentCreator := some x } }
      = (Except.ok v,
         { s1 with context := { scope := scope, parentCreator := some x } }) := by
    rw [hb]
    rw [createRunF_of_ok defs fuel _ args _ _ () (interpCallsF_nil defs fuel _)]
    exact hv _
  exact missRunF_of_ok _ _ _ _ _ _ _ _ _ _ hcr

/-- C6: for a SINGLETON or SCOPED injectable whose target cache holds a
(truthy) instance, `inject` returns that cached instance no matter what
explicit arguments are passed, the factory is not invoked, and the only
state change is the recorded parent edge; consequently, with an
argument-using factory, resolving with 'a' first and 'b' second yields a
second result still built from 'a'. -/
theorem claim_C6 (defs : Defs) (fuel x : Nat) (d : InjDef)
    (args : List Value) (s : EngineState) (v : Value)
    (hd : alookup defs x = some d)
    (ht : d.scopeType ≠ TRANSIENT_SCOPE)
    (hcached : cacheGet s (targetOf d s.context.scope) x = some v)
    (htruthy : v.truthy = true) :
    injectF defs (fuel + 1) x args s = (Except.ok v, recordEdge s x)
    ∧ (∀ (a b : Value) (s0 : EngineState) (f1 f2 : Nat),
        d.body = ⟨[], RetSpec.arg⟩ →
        a.truthy = true →
        cacheGet s0 (targetOf d s0.context.scope) x = none →
        (injectF defs (f1 + 1) x [a] s0).1 = Except.ok a
        ∧ (injectF defs (f2 + 1) x [b]
            ((injectF defs (f1 + 1) x [a] s0).2)).1 = Except.ok a) := by
  constructor
  · exact injectF_hit defs fuel x d args s v hd ht hcached htruthy
  · intro a b s0 f1 f2 hbody htr hm
    have hfirst : injectF defs (f1 + 1) x [a] s0
        = (Except.ok a,
           { cacheSet { recordEdge s0 x with
               context := { scope := s0.context.scope, parentCreator := some x } }
               (targetOf d s0.context.scope) x a
             with context := (recordEdge s0 x).context }) := by
      rw [injectF_missNone defs f1 x d [a] s0 hd ht hm]
      exact missRunF_leaf defs f1 d x RetSpec.arg [a] _ _ _ a hbody (fun sc => rfl)
    have hcached2 : cacheGet ((injectF defs (f1 + 1) x [a] s0).2)
        (targetOf d ((injectF defs (f1 + 1) x [a] s0).2).context.scope) x = some a := by
      rw [hfirst]
      have hsc : ({ cacheSet { recordEdge s0 x with
          context := { scope := s0.context.scope, parentCreator := some x } }
          (targetOf d s0.context.scope) x a
          with context := (recordEdge s0 x).context } : EngineState).context.scope
          = s0.context.scope := by
        show (recordEdge s0 x).context.scope = s0.context.scope
        rw [recordEdge_context]
      rw [hsc]
      show cacheGet (cacheSet { recordEdge s0 x with
        context := { scope := s0.context.scope, parentCreator := some x } }
        (targetOf d s0.context.scope) x a) (targetOf d s0.context.scope) x = some a
      exact cacheGet_cacheSet_self _ _ _ _
    constructor
    · rw [hfirst]
    · rw [injectF_hit defs f2 x d [b] _ a hd ht hcached2 htr]

/-- Closed witness for C6: the singleton argument-echo factory resolved
with "a" then "b" returns "a" both times, the second call changing nothing
but the parent edge. -/
def defsArg : Defs :=
  [(1, ⟨SINGLETON_SCOPE, ⟨[], RetSpec.arg⟩⟩)]

def sC6 : EngineState := (injectF defsArg 2 1 [Value.str "a"] initState).2

theorem claim_C6_witness :
    injectF defsArg 3 1 [Value.str "b"] sC6
      = (Except.ok (Value.str "a"), recordEdge sC6 1)
    ∧ (injectF defsArg 2 1 [Value.str "a"] initState).1 = Except.ok (Value.str "a")
    ∧ (injectF defsArg 3 1 [Value.str "b"] sC6).1 = Except.ok (Value.str "a") := by
  obtain ⟨h1, h2⟩ := claim_C6 defsArg 2 1 ⟨SINGLETON_SCOPE, ⟨[], RetSpec.arg⟩⟩
    [Value.str "b"] sC6 (Value.str "a") rfl (by decide) rfl rfl
  have h3 := h2 (Value.str "a") (Value.str "b") initState 1 2 rfl rfl rfl
  exact ⟨h1, h3.1, h3.2⟩

/-- C7 (counterexample to the claim as stated): `use` does not always
return the cached instance when one is present — with a falsy cached value
the cache holds an entry for the injectable, yet `use` returns undefined. -/
def defsFalse : Defs :=
  [(1, ⟨SINGLETON_SCOPE, ⟨[], RetSpec.const (Value.boolean false)⟩⟩)]

def sFalse : EngineState := (injectF defsFalse 2 1 [] initState).2

theorem claim_C7_counterexample :
    cacheGet sFalse rootScopeId 1 = some (Value.boolean false)
    ∧ (useF defsFalse 1 sFalse).1 = Except.ok Value.undef
    ∧ Value.undef ≠ Value.boolean false := by
  refine ⟨rfl, rfl, by decide⟩

/-- C7 (amended): `use` never invokes the factory, never writes to any
scope's cache and never mutates any dependency set — the state is returned
exactly unchanged (also through `scope.use`); it returns the instance
cached in the appropriate cache (root scope for SINGLETON, the ambient
scope otherwise) when one is present AND truthy, and the absent result
(undefined) otherwise — including when a falsy entry is present. -/
theorem claim_C7_amended (defs : Defs) (x : Nat) (d : InjDef) (s : EngineState)
    (hd : alookup defs x = some d) :
    (useF defs x s).2 = s
    ∧ (∀ sid, (scopeUse defs sid x s).2 = s)
    ∧ (∀ v, cacheGet s (targetOf d s.context.scope) x = some v → v.truthy = true →
        (useF defs x s).1 = Except.ok v)
    ∧ (cacheGet s (targetOf d s.context.scope) x = none →
        (useF defs x s).1 = Except.ok Value.undef)
    ∧ (∀ v, cacheGet s (targetOf d s.context.scope) x = some v → v.truthy = false →
        (useF defs x s).1 = Except.ok Value.undef) :=
  ⟨useF_state defs x s,
   fun sid => scopeUse_state defs sid x d s hd,
   fun v hcg htr => useF_fst_some_truthy defs x d s v hd hcg htr,
   fun hcg => useF_fst_none defs x d s hd hcg,
   fun v hcg htr => useF_fst_some_falsy defs x d s v hd hcg htr⟩

/-- Closed witness for C7 (amended): read-only lookups on concrete cached
and missing entries. -/
def sC7 : EngineState := (injectF defsSingleton 2 1 [] initState).2

theorem claim_C7_witness :
    (useF defsSingleton 1 sC7).2 = sC7
    ∧ (scopeUse defsSingleton 8 1 sC7).2 = sC7
    ∧ (useF defsSingleton 1 sC7).1 = Except.ok (Value.obj 0)
    ∧ (useF defsSingleton 1 initState).1 = Except.ok Value.undef
    ∧ (useF defsFalse 1 sFalse).1 = Except.ok Value.undef := by
  obtain ⟨ha, hb1, hc, _, _⟩ := claim_C7_amended defsSingleton 1
    ⟨SINGLETON_SCOPE, ⟨[], RetSpec.newObj⟩⟩ sC7 rfl
  obtain ⟨_, _, _, hd2, _⟩ := claim_C7_amended defsSingleton 1
    ⟨SINGLETON_SCOPE, ⟨[], RetSpec.newObj⟩⟩ initState rfl
  obtain ⟨_, _, _, _, he⟩ := claim_C7_amended defsFalse 1
    ⟨SINGLETON_SCOPE, ⟨[], RetSpec.const (Value.boolean false)⟩⟩ sFalse rfl
  exact ⟨ha, hb1 8, hc (Value.obj 0) rfl rfl, hd2 rfl,
    he (Value.boolean false) rfl rfl⟩

/-- C8: `scope.reset()` empties exactly that scope's instance cache and
leaves every other scope's cache, every dependency set, the ambient
context and the allocation counter unchanged. -/
theorem claim_C8 (s : EngineState) (sid : Nat) :
    cacheOf (resetScope sid s) sid = []
    ∧ (∀ t, t ≠ sid → cacheOf (resetScope sid s) t = cacheOf s t)
    ∧ (resetScope sid s).deps = s.deps
    ∧ (resetScope sid s).context = s.context
    ∧ (resetScope sid s).nextId = s.nextId := by
  refine ⟨?_, ?_, rfl, rfl, rfl⟩
  · unfold cacheOf resetScope
    rw [show alookup (aset s.scopes sid []) sid = some [] from alookup_aset_self _ _ _]
    rfl
  · intro t ht
    unfold cacheOf resetScope
    rw [alookup_aset_ne _ _ _ _ ht]

/-- Closed witness for C8: a state holding an instance in scope 5 and one
in the root scope; resetting scope 5 clears it and leaves the root alone. -/
def sC8 : EngineState :=
  (injectF defsSingleton 2 1 [] (scopeInject defsScoped 3 5 1 [] initState).2).2

theorem claim_C8_witness :
    cacheOf (resetScope 5 sC8) 5 = []
    ∧ cacheOf (resetScope 5 sC8) rootScopeId = cacheOf sC8 rootScopeId
    ∧ (resetScope 5 sC8).deps = sC8.deps
    ∧ (resetScope 5 sC8).context = sC8.context
    ∧ (resetScope 5 sC8).nextId = sC8.nextId := by
  obtain ⟨h1, h2, h3, h4, h5⟩ := claim_C8 sC8 5
  exact ⟨h1, h2 rootScopeId (by decide), h3, h4, h5⟩

/-- C9: for a SINGLETON/SCOPED injectable, a falsy produced value is stored
in the target cache, but every later `inject` treats the entry as a miss —
the factory re-runs (observably: with the newly passed argument) and
overwrites the entry — and `use` returns undefined even though the cache
holds the entry: the cache-hit guarantees hold only for truthy values. -/
theorem claim_C9 (defs : Defs) (x : Nat) (d : InjDef)
    (hd : alookup defs x = some d)
    (ht : d.scopeType ≠ TRANSIENT_SCOPE) :
    (∀ (fuel : Nat) (w : Value) (args : List Value) (s : EngineState),
       d.body = ⟨[], RetSpec.const w⟩ →
       w.truthy = false →
       cacheGet s (targetOf d s.context.scope) x = none →
       (injectF defs (fuel + 1) x args s).1 = Except.ok w
       ∧ cacheGet ((injectF defs (fuel + 1) x args s).2)
           (targetOf d s.context.scope) x = some w)
    ∧ (∀ (fuel : Nat) (w a : Value) (s : EngineState),
       d.body = ⟨[], RetSpec.arg⟩ →
       cacheGet s (targetOf d s.context.scope) x = some w →
       w.truthy = false →
       (injectF defs (fuel + 1) x [a] s).1 = Except.ok a
       ∧ cacheGet ((injectF defs (fuel + 1) x [a] s).2)
           (targetOf d s.context.scope) x = some a)
    ∧ (∀ (w : Value) (s : EngineState),
       cacheGet s (targetOf d s.context.scope) x = some w →
       w.truthy = false →
       useF defs x s = (Except.ok Value.undef, s)) := by
  refine ⟨?_, ?_, ?_⟩
  · intro fuel w args s hbody _ hm
    have heq : injectF defs (fuel + 1) x args s
        = (Except.ok w,
           { cacheSet { recordEdge s x with
               context := { scope := s.context.scope, parentCreator := some x } }
               (targetOf d s.context.scope) x w
             with context := (recordEdge s x).context }) := by
      rw [injectF_missNone defs fuel x d args s hd ht hm]
      exact missRunF_leaf defs fuel d x (RetSpec.const w) args _ _ _ w hbody
        (fun sc => rfl)
    rw [heq]
    exact ⟨rfl, cacheGet_cacheSet_self _ _ _ _⟩
  · intro fuel w a s hbody hcg hw
    have heq : injectF defs (fuel + 1) x [a] s
        = (Except.ok a,
           { cacheSet { recordEdge s x with
               context := { scope := s.context.scope, parentCreator := some x } }
               (targetOf d s.context.scope) x a
             with context := (recordEdge s x).context }) := by
      rw [injectF_missFalsy defs fuel x d [a] s w hd ht hcg hw]
      exact missRunF_leaf defs fuel d x RetSpec.arg [a] _ _ _ a hbody (fun sc => rfl)
    rw [heq]
    exact ⟨rfl, cacheGet_cacheSet_self _ _ _ _⟩
  · intro w s hcg hw
    obtain ⟨w2, hw2⟩ := useF_ok defs x d s hd
    have hfst := useF_fst_some_falsy defs x d s w hd hcg hw
    rw [hw2] at hfst
    injection hfst with hfst
    rw [hw2, hfst]

/-- Closed witness for C9: a falsy constant singleton is cached yet
re-produced; the argument-echo singleton caches the falsy 0, then a later
call with "go" re-runs the factory and overwrites the entry; `use` reports
absent on the falsy entry. -/
def sC9 : EngineState := (injectF defsArg 2 1 [Value.num 0] initState).2

theorem claim_C9_witness :
    (injectF defsFalse 2 1 [] initState).1 = Except.ok (Value.boolean false)
    ∧ cacheGet ((injectF defsFalse 2 1 [] initState).2) rootScopeId 1
      = some (Value.boolean false)
    ∧ (injectF defsArg 2 1 [Value.str "go"] sC9).1 = Except.ok (Value.str "go")
    ∧ cacheGet ((injectF defsArg 2 1 [Value.str "go"] sC9).2) rootScopeId 1
      = some (Value.str "go")
    ∧ useF defsArg 1 sC9 = (Except.ok Value.undef, sC9) := by
  obtain ⟨ha, _, _⟩ := claim_C9 defsFalse 1
    ⟨SINGLETON_SCOPE, ⟨[], RetSpec.const (Value.boolean false)⟩⟩ rfl (by decide)
  obtain ⟨_, hb2, hc2⟩ := claim_C9 defsArg 1
    ⟨SINGLETON_SCOPE, ⟨[], RetSpec.arg⟩⟩ rfl (by decide)
  have p1 := ha 1 (Value.boolean false) [] initState rfl rfl rfl
  have p2 := hb2 1 (Value.num 0) (Value.str "go") sC9 rfl rfl rfl
  have p3 := hc2 (Value.num 0) sC9 rfl rfl
  exact ⟨p1.1, p1.2, p2.1, p2.2, p3⟩
